import Mathlib

/-!
Verification development for the `ZStack` networking stack
(`stp_zmq/zstack.py` of the plenum repository).

The Python class is shallowly embedded: the stack's mutable attributes become
the fields of `ZState`, each method becomes a Lean function from state to
state (plus its return value), and the external world (sockets, clock, disk)
is passed in explicitly as an `Env` / disk-lookup arguments.  Byte strings
are `List Nat` (byte values), decoded text is `List Nat` (Unicode code
points), and Python `dict`s are association lists with Python's
replace-in-place / remove semantics.

Collaborators of `ZStack` that live in the same repository but outside the
provided sources (`stp_zmq/remote.py`, `stp_core`'s validators and
exceptions) are modelled from the specification; their definitions carry a
doc comment starting with `Modelled from the spec:`.
-/

namespace ZStackModel

/-! ## Python dict as an association list -/

/-- Lookup in an association list: the value of the first entry with the
given key, as Python `d[k]` / `d.get(k)`. -/
def dlookup {V : Type} (k : String) : List (String × V) → Option V
  | [] => none
  | p :: tl => if k = p.1 then some p.2 else dlookup k tl

/-- Python `d[k] = v`: replace the value of an existing key in place,
otherwise append the binding at the end (dicts preserve insertion order). -/
def dinsert {V : Type} (k : String) (v : V) : List (String × V) → List (String × V)
  | [] => [(k, v)]
  | p :: tl => if p.1 = k then (k, v) :: tl else p :: dinsert k v tl

/-- Python `d.pop(k, None)`: drop the binding for `k` (dict keys are unique,
so dropping every entry with key `k` is the same operation). -/
def dpop {V : Type} (k : String) : List (String × V) → List (String × V)
  | [] => []
  | p :: tl => if p.1 = k then dpop k tl else p :: dpop k tl

/-! ## Remote and stack state -/

/-- Modelled from the spec: the `Remote` class (`stp_zmq/remote.py`, not among
the provided sources).  Spec section 3: a remote is
`{name, host-address, verify-key, encryption-public-key, socket?,
connected-flag, uid}`.  The socket is abstracted to the flag `hasSocket`;
`uid` is a number fresh per constructed object, which also serves as Python
object identity for the value-level embedding. -/
structure Remote where
  name : String
  ha : Option (String × Nat)
  verKey : Option String
  publicKey : String
  hasSocket : Bool
  isConnected : Bool
  uid : Nat
deriving DecidableEq

/-- Modelled from the spec: `Remote.connect` creates a dealer socket and
dials the peer (state `Dialing`); a prior socket is torn down first. -/
def remoteConnect (r : Remote) : Remote :=
  { r with hasSocket := true }

/-- Modelled from the spec: `Remote.disconnect` closes the socket with zero
linger; the state machine returns to `NoSocket`. -/
def remoteDisconnect (r : Remote) : Remote :=
  { r with hasSocket := false, isConnected := false }

/-- Modelled from the spec: `Remote.setConnected` sets the liveness bit
(called on pong receipt). -/
def remoteSetConnected (r : Remote) : Remote :=
  { r with isConnected := true }

/-- The configuration options `ZStack.__init__` reads (spec section 6). -/
structure Config where
  MSG_LEN_LIMIT : Nat
  DEFAULT_LISTENER_QUOTA : Nat
  DEFAULT_SENDER_QUOTA : Nat
  ENABLE_HEARTBEATS : Bool
  HEARTBEAT_FREQ : Nat
deriving DecidableEq

/-- Reason passed to `msgRejectHandler` ("Message will be discarded due to
{ex}"): which exception `_verifyAndAppend` caught. -/
inductive RejectReason where
  | tooLarge
  | badUtf8
deriving DecidableEq

/-- A JSON value as produced by `json.loads` (ints, strings, booleans,
null, arrays, string-keyed objects).  Strings are lists of Unicode code
points.  Floats are outside the model (see the notes on claim C9). -/
inductive J where
  | jnull : J
  | jbool : Bool → J
  | jint : Int → J
  | jstr : List Nat → J
  | jarr : List J → J
  | jobj : List (List Nat × J) → J

/-- A value handed to `ZStack.send` / `serializeMsg`: a JSON-representable
mapping, a text string (code points) or raw bytes. -/
inductive PyMsg where
  | pmap : List (List Nat × J) → PyMsg
  | pstr : List Nat → PyMsg
  | pbytes : List Nat → PyMsg

/-- The mutable state of one `ZStack` instance, plus observation logs for
the calls the stack makes to its collaborators (`sent` = successful
`socket.send` per remote, `sentListener` = sends through the listener
socket, `handledMsgs` = invocations of `msgHandler`, `rejected` =
invocations of `msgRejectHandler`).  `valCount` counts the calls to the
message length validator (`prepare_to_send`).  `auth` is `some allowAny`
while the authenticator is set up. -/
structure ZState where
  config : Config
  remotes : List (String × Remote)
  remotesByKeys : List (String × Remote)
  verifiers : List (String × Unit)
  peersWithoutRemotes : List String
  rxMsgs : List (List Nat × String)
  listener : Bool
  onlyListener : Bool
  restricted : Bool
  auth : Option Bool
  conns : List String
  last_heartbeat_at : Option Nat
  nextUid : Nat
  sent : List (String × List Nat)
  sentListener : List (String × List Nat)
  handledMsgs : List (J × String)
  rejected : List (RejectReason × String)
  valCount : Nat

/-- The world outside the stack for one call: the clock, the frames each
socket would deliver before raising EAGAIN, and whether a non-blocking send
on a given socket would raise EAGAIN. -/
structure Env where
  now : Nat
  listenerFrames : List (String × List Nat)
  remoteFrames : String → List (List Nat)
  sendBlocks : String → Bool
  listenerBlocks : Bool

/-- The state of a freshly constructed stack (`ZStack.__init__`): every
table empty, not started. -/
def mkInit (cfg : Config) (onlyListener restricted : Bool) : ZState :=
  { config := cfg, remotes := [], remotesByKeys := [], verifiers := []
    peersWithoutRemotes := [], rxMsgs := [], listener := false
    onlyListener := onlyListener, restricted := restricted, auth := none
    conns := [], last_heartbeat_at := none, nextUid := 0, sent := []
    sentListener := [], handledMsgs := [], rejected := [], valCount := 0 }

/-- `ZStack.isRestricted`: `not auth.allow_any` while an authenticator
exists, the constructor argument otherwise. -/
def isRestricted (st : ZState) : Bool :=
  match st.auth with
  | some allowAny => !allowAny
  | none => st.restricted

/-- `ZStack.isKeySharing` is the negation of `isRestricted`. -/
def isKeySharing (st : ZState) : Bool :=
  !(isRestricted st)

/-- Python object mutation of a `Remote`: every alias of the object (an
entry of `remotes` or `remotesByKeys` with the same `uid`) sees the
update. -/
def updRemote (uid : Nat) (f : Remote → Remote) (st : ZState) : ZState :=
  { st with
    remotes := st.remotes.map (fun p => (p.1, if p.2.uid = uid then f p.2 else p.2))
    remotesByKeys :=
      st.remotesByKeys.map (fun p => (p.1, if p.2.uid = uid then f p.2 else p.2)) }

/-! ## Remote management (`addRemote`, `removeRemote`) -/

/-- `ZStack.addRemote` (zstack.py 627-637): construct a `Remote`, insert it
into `remotes` under its name and into `remotesByKeys` under its public
key, and register a verifier when a verkey was given. -/
def addRemote (st : ZState) (name : String) (ha : Option (String × Nat))
    (remoteVerkey : Option String) (remotePublicKey : String) : ZState × Remote :=
  let remote : Remote :=
    { name := name, ha := ha, verKey := remoteVerkey, publicKey := remotePublicKey
      hasSocket := false, isConnected := false, uid := st.nextUid }
  let st1 :=
    { st with
      nextUid := st.nextUid + 1
      remotes := dinsert name remote st.remotes
      remotesByKeys := dinsert remotePublicKey remote st.remotesByKeys }
  let st2 :=
    match remoteVerkey with
    | some vk => { st1 with verifiers := dinsert vk () st1.verifiers }
    | none => st1
  (st2, remote)

/-- `ZStack.removeRemote` (zstack.py 129-141): when a remote with the given
object's name is present, pop the name from `remotes`, the object's public
key from `remotesByKeys` and its verkey from `verifiers`; otherwise only
log. -/
def removeRemote (st : ZState) (remote : Remote) : ZState :=
  if (dlookup remote.name st.remotes).isSome then
    { st with
      remotes := dpop remote.name st.remotes
      remotesByKeys := dpop remote.publicKey st.remotesByKeys
      verifiers :=
        match remote.verKey with
        | some vk => dpop vk st.verifiers
        | none => st.verifiers }
  else st

/-! ## Lifecycle (`close`, `stop`) -/

/-- `ZStack.close` (zstack.py 355-371).  When no listener exists the very
first statement (`self.listener.unbind`) raises before any mutation, so the
state is unchanged.  Otherwise: the listener is closed and dropped, each
remote is disconnected and its public key popped from `remotesByKeys`,
`_remotes` is replaced by an empty dict, any leftover `remotesByKeys`
entries are disconnected and the dict replaced by an empty one, and
`_conns` is cleared — the net effect on the tables is that `remotes` and
`remotesByKeys` are both empty.  `peersWithoutRemotes` is not touched. -/
def close (st : ZState) : ZState :=
  if st.listener then
    { st with listener := false, remotes := [], remotesByKeys := [], conns := [] }
  else st

/-- `ZStack.stop` (zstack.py 323-331): `close` the listener when `opened`,
then stop the authenticator (`teardownAuth` mutates no stack attribute). -/
def stop (st : ZState) : ZState :=
  if st.listener then close st else st

/-- A small concrete configuration used by concrete test states. -/
def cfg0 : Config :=
  { MSG_LEN_LIMIT := 100, DEFAULT_LISTENER_QUOTA := 100
    DEFAULT_SENDER_QUOTA := 100, ENABLE_HEARTBEATS := false, HEARTBEAT_FREQ := 1 }

/-- A started stack that has seen one inbound identity without a remote. -/
def c2State : ZState :=
  { mkInit cfg0 true true with listener := true, peersWithoutRemotes := ["peerA"] }

/-! ## UTF-8 (Python `str.encode` / `bytes.decode`)

`msg.decode()` in `_verifyAndAppend` performs strict UTF-8 decoding (it
rejects stray continuation bytes, overlong forms, surrogates and code
points above U+10FFFF) and `str.encode()` in `serializeMsg` the matching
encoding.  Bytes are `Nat`s below 256, decoded text is the list of code
points. -/

/-- A Unicode scalar value: what a strict UTF-8 decoder may produce. -/
def ValidCp (c : Nat) : Prop := c < 0x110000 ∧ ¬(0xD800 ≤ c ∧ c < 0xE000)

instance (c : Nat) : Decidable (ValidCp c) := by
  unfold ValidCp
  infer_instance

/-- UTF-8 continuation byte test. -/
def contByte (b : Nat) : Bool := 0x80 ≤ b && b < 0xC0

/-- Decode one UTF-8 sequence from the head of a byte string (strict, as
Python's `bytes.decode`): the code point and the remaining bytes. -/
def decodeOne : List Nat → Option (Nat × List Nat)
  | [] => none
  | b :: bs =>
    if b < 0x80 then some (b, bs)
    else if b < 0xC2 then none
    else if b < 0xE0 then
      match bs with
      | b1 :: bs1 =>
        if contByte b1 then some ((b - 0xC0) * 0x40 + (b1 - 0x80), bs1) else none
      | [] => none
    else if b < 0xF0 then
      match bs with
      | b1 :: b2 :: bs2 =>
        if contByte b1 && contByte b2 then
          let c := (b - 0xE0) * 0x1000 + (b1 - 0x80) * 0x40 + (b2 - 0x80)
          if c < 0x800 then none
          else if 0xD800 ≤ c ∧ c < 0xE000 then none
          else some (c, bs2)
        else none
      | _ => none
    else if b < 0xF5 then
      match bs with
      | b1 :: b2 :: b3 :: bs3 =>
        if contByte b1 && contByte b2 && contByte b3 then
          let c := (b - 0xF0) * 0x40000 + (b1 - 0x80) * 0x1000 +
            (b2 - 0x80) * 0x40 + (b3 - 0x80)
          if c < 0x10000 then none
          else if 0x10FFFF < c then none
          else some (c, bs3)
        else none
      | _ => none
    else none

/-- Iterated `decodeOne`; the fuel only bounds the recursion and is in
excess whenever it is at least the length of the input (each step consumes
at least one byte). -/
def utf8DecodeGo : Nat → List Nat → Option (List Nat)
  | _, [] => some []
  | 0, _ :: _ => none
  | fuel + 1, l =>
    match decodeOne l with
    | some (c, rest) => (utf8DecodeGo fuel rest).map (fun cs => c :: cs)
    | none => none

/-- Python `bytes.decode()`: the code points of a byte string, or `none`
when a `UnicodeDecodeError` would be raised. -/
def utf8Decode (bs : List Nat) : Option (List Nat) :=
  utf8DecodeGo bs.length bs

/-- The UTF-8 encoding of one code point. -/
def encChar (c : Nat) : List Nat :=
  if c < 0x80 then [c]
  else if c < 0x800 then [0xC0 + c / 0x40, 0x80 + c % 0x40]
  else if c < 0x10000 then
    [0xE0 + c / 0x1000, 0x80 + c / 0x40 % 0x40, 0x80 + c % 0x40]
  else
    [0xF0 + c / 0x40000, 0x80 + c / 0x1000 % 0x40, 0x80 + c / 0x40 % 0x40,
      0x80 + c % 0x40]

/-- Python `str.encode()`. -/
def utf8Encode : List Nat → List Nat
  | [] => []
  | c :: cs => encChar c ++ utf8Encode cs

/-! ## The inbound frame validator (`_verifyAndAppend`) -/

/-- Modelled from the spec: `MessageLenValidator.validate`
(`stp_core.validators.message_length_validator`, not among the provided
sources) accepts a byte string iff its length is at most the configured
`MSG_LEN_LIMIT`; otherwise it raises
`InvalidMessageExceedingSizeException` (spec sections 4.6/4.7). -/
def lenValid (limit : Nat) (msg : List Nat) : Bool :=
  msg.length ≤ limit

/-- The source name used in rejections and dispatch: the remote's name when
the identity is known, the raw identity otherwise (zstack.py 450,
535-536). -/
def rejectFrm (st : ZState) (ident : String) : String :=
  match dlookup ident st.remotesByKeys with
  | some r => r.name
  | none => ident

/-- `ZStack._verifyAndAppend` (zstack.py 444-455): validate the frame's
byte length, decode it as UTF-8; on either failure call the rejection
handler once with the reason and the resolved source and drop the frame;
otherwise enqueue `(decoded, ident)` and return `True`. -/
def verifyAndAppend (st : ZState) (msg : List Nat) (ident : String) : ZState × Bool :=
  if !(lenValid st.config.MSG_LEN_LIMIT msg) then
    ({ st with rejected := st.rejected ++ [(RejectReason.tooLarge, rejectFrm st ident)] },
      false)
  else
    match utf8Decode msg with
    | none =>
      ({ st with rejected := st.rejected ++ [(RejectReason.badUtf8, rejectFrm st ident)] },
        false)
    | some decoded =>
      ({ st with rxMsgs := st.rxMsgs ++ [(decoded, ident)] }, true)

/-- The invariant claimed for the inbound queue: every enqueued text is
within the length limit and is the decoding of valid UTF-8 (its code
points are Unicode scalar values). -/
def QueueWF (limit : Nat) (q : List (List Nat × String)) : Prop :=
  ∀ e ∈ q, e.1.length ≤ limit ∧ ∀ c ∈ e.1, ValidCp c

/-! ## JSON (`json.dumps` / `json.loads`)

`serializeMsg` and `deserializeMsg` delegate to the external `json`
library.  The library is modelled executably: `jdump` is `json.dumps` with
its default ASCII-escaping behaviour (compact separators as the spec's
"compact JSON text"), `loads` is a strict JSON reader for the same value
space.  Floating point numbers and non-string keys are outside the model;
a mapping is serialized in iteration order and `json.loads` reconstructs
object entries in that same order. -/

/-- A string that Python can hold and UTF-8-encode: all scalar values. -/
def validStr (s : List Nat) : Bool :=
  s.all (fun c => decide (ValidCp c))

mutual
/-- Well-formedness of a JSON value: every string is a scalar-value
string. -/
def wfV : J → Bool
  | .jnull => true
  | .jbool _ => true
  | .jint _ => true
  | .jstr s => validStr s
  | .jarr xs => wfE xs
  | .jobj fs => wfF fs
def wfE : List J → Bool
  | [] => true
  | x :: tl => wfV x && wfE tl
def wfF : List (List Nat × J) → Bool
  | [] => true
  | p :: tl => validStr p.1 && wfV p.2 && wfF tl
end

/-- Decimal digits of a natural number, most significant first, as code
points (`"0"` for zero). -/
def natDump (n : Nat) : List Nat :=
  if n = 0 then [48] else (Nat.digits 10 n).reverse.map (fun d => 48 + d)

/-- `json.dumps` of an integer. -/
def intDump (n : Int) : List Nat :=
  if n < 0 then 45 :: natDump n.natAbs else natDump n.toNat

/-- A lowercase hexadecimal digit as a code point. -/
def hexDig (n : Nat) : Nat :=
  if n < 10 then 48 + n else 87 + n

/-- The six-character escape `\uXXXX` of a value below `0x10000`. -/
def esc4 (u : Nat) : List Nat :=
  [92, 117, hexDig (u / 4096 % 16), hexDig (u / 256 % 16), hexDig (u / 16 % 16),
    hexDig (u % 16)]

/-- How `json.dumps` (default `ensure_ascii`) emits one character of a
string: `"` and `\` and the five short control escapes specially, printable
ASCII literally, anything else as `\uXXXX` (a surrogate pair beyond the
BMP). -/
def escChar (c : Nat) : List Nat :=
  if c = 34 then [92, 34]
  else if c = 92 then [92, 92]
  else if c = 8 then [92, 98]
  else if c = 9 then [92, 116]
  else if c = 10 then [92, 110]
  else if c = 12 then [92, 102]
  else if c = 13 then [92, 114]
  else if 32 ≤ c ∧ c ≤ 126 then [c]
  else if c < 0x10000 then esc4 c
  else esc4 (0xD800 + (c - 0x10000) / 0x400) ++ esc4 (0xDC00 + (c - 0x10000) % 0x400)

/-- The body of a dumped JSON string (without the enclosing quotes). -/
def dumpStrBody : List Nat → List Nat
  | [] => []
  | c :: r => escChar c ++ dumpStrBody r

mutual
/-- `json.dumps` with compact separators: the value, the elements of an
array after the first each prefixed by a comma (closing bracket included),
likewise for object fields. -/
def jdump : J → List Nat
  | .jnull => [110, 117, 108, 108]
  | .jbool true => [116, 114, 117, 101]
  | .jbool false => [102, 97, 108, 115, 101]
  | .jint n => intDump n
  | .jstr s => 34 :: (dumpStrBody s ++ [34])
  | .jarr xs => 91 :: jdumpElems xs
  | .jobj fs => 123 :: jdumpFields fs
def jdumpElems : List J → List Nat
  | [] => [93]
  | x :: tl => jdump x ++ jdumpElemsT tl
def jdumpElemsT : List J → List Nat
  | [] => [93]
  | x :: tl => 44 :: (jdump x ++ jdumpElemsT tl)
def jdumpFields : List (List Nat × J) → List Nat
  | [] => [125]
  | p :: tl => (34 :: (dumpStrBody p.1 ++ [34, 58])) ++ (jdump p.2 ++ jdumpFieldsT tl)
def jdumpFieldsT : List (List Nat × J) → List Nat
  | [] => [125]
  | p :: tl =>
    44 :: ((34 :: (dumpStrBody p.1 ++ [34, 58])) ++ (jdump p.2 ++ jdumpFieldsT tl))
end

/-- JSON insignificant whitespace. -/
def isWs (c : Nat) : Bool :=
  c = 32 || c = 9 || c = 10 || c = 13

/-- Skip insignificant whitespace. -/
def skipWs : List Nat → List Nat
  | [] => []
  | c :: r => if isWs c then skipWs r else c :: r

/-- ASCII decimal digit test. -/
def isDigit (c : Nat) : Bool :=
  48 ≤ c && c ≤ 57

/-- Take the leading run of decimal digits, as digit values. -/
def takeDigits : List Nat → List Nat × List Nat
  | [] => ([], [])
  | c :: r =>
    if isDigit c then
      ((c - 48) :: (takeDigits r).1, (takeDigits r).2)
    else ([], c :: r)

/-- The value of a most-significant-first digit list. -/
def digitsVal (ds : List Nat) : Nat :=
  Nat.ofDigits 10 ds.reverse

/-- Read a JSON number (integers only in the model; the reader is lenient
about leading zeros, which `jdump` never produces). -/
def parseNum : List Nat → Option (J × List Nat)
  | [] => none
  | c :: r =>
    if c = 45 then
      match takeDigits r with
      | ([], _) => none
      | (ds, rest) => some (J.jint (-(digitsVal ds : Int)), rest)
    else
      match takeDigits (c :: r) with
      | ([], _) => none
      | (ds, rest) => some (J.jint ((digitsVal ds : Int)), rest)

/-- The value of one hexadecimal digit (either case). -/
def hexVal (c : Nat) : Option Nat :=
  if 48 ≤ c ∧ c ≤ 57 then some (c - 48)
  else if 65 ≤ c ∧ c ≤ 70 then some (c - 55)
  else if 97 ≤ c ∧ c ≤ 102 then some (c - 87)
  else none

/-- Read a JSON string body up to the closing quote as a list of code
units: literal characters give their code point, escapes their value (a
`\uXXXX` escape gives the bare 16-bit unit, so an astral character arrives
as its surrogate pair).  Unescaped control characters, bad escapes and a
missing closing quote are rejected. -/
def parseUnits : List Nat → Option (List Nat × List Nat)
  | [] => none
  | c :: r =>
    if c = 34 then some ([], r)
    else if c = 92 then
      match r with
      | [] => none
      | e :: r1 =>
        if e = 117 then
          match r1 with
          | h1 :: h2 :: h3 :: h4 :: r2 =>
            match hexVal h1, hexVal h2, hexVal h3, hexVal h4 with
            | some x1, some x2, some x3, some x4 =>
              (parseUnits r2).map
                (fun p => ((x1 * 4096 + x2 * 256 + x3 * 16 + x4) :: p.1, p.2))
            | _, _, _, _ => none
          | _ => none
        else if e = 34 then (parseUnits r1).map (fun p => (34 :: p.1, p.2))
        else if e = 92 then (parseUnits r1).map (fun p => (92 :: p.1, p.2))
        else if e = 47 then (parseUnits r1).map (fun p => (47 :: p.1, p.2))
        else if e = 98 then (parseUnits r1).map (fun p => (8 :: p.1, p.2))
        else if e = 102 then (parseUnits r1).map (fun p => (12 :: p.1, p.2))
        else if e = 110 then (parseUnits r1).map (fun p => (10 :: p.1, p.2))
        else if e = 114 then (parseUnits r1).map (fun p => (13 :: p.1, p.2))
        else if e = 116 then (parseUnits r1).map (fun p => (9 :: p.1, p.2))
        else none
    else if c < 32 then none
    else (parseUnits r).map (fun p => (c :: p.1, p.2))

/-- Combine an escaped high surrogate immediately followed by an escaped
low surrogate into one code point, as Python's `json.loads` does; lone
surrogates are kept as they are. -/
def combineSurrogates : List Nat → List Nat
  | [] => []
  | [u] => [u]
  | u :: u2 :: rest =>
    if (0xD800 ≤ u ∧ u < 0xDC00) ∧ (0xDC00 ≤ u2 ∧ u2 < 0xE000) then
      (0x10000 + (u - 0xD800) * 0x400 + (u2 - 0xDC00)) :: combineSurrogates rest
    else u :: combineSurrogates (u2 :: rest)

/-- Read a JSON string body up to the closing quote, undoing the escapes
(surrogate pairs are combined). -/
def parseStrBody (l : List Nat) : Option (List Nat × List Nat) :=
  (parseUnits l).map (fun p => (combineSurrogates p.1, p.2))

/-- The code-unit sequence `json.dumps` conceptually emits for a string:
one unit per BMP character, a surrogate pair beyond the BMP. -/
def utf16Units : List Nat → List Nat
  | [] => []
  | c :: r =>
    if c < 0x10000 then c :: utf16Units r
    else
      (0xD800 + (c - 0x10000) / 0x400) :: (0xDC00 + (c - 0x10000) % 0x400) ::
        utf16Units r

mutual
/-- Read one JSON value.  The fuel only bounds the nesting recursion; it is
in excess whenever it is at least `fvV` of the value read. -/
def parseVal : Nat → List Nat → Option (J × List Nat)
  | 0, _ => none
  | fuel + 1, input =>
    match skipWs input with
    | [] => none
    | c :: r =>
      if c = 110 then
        match r with
        | 117 :: 108 :: 108 :: r2 => some (.jnull, r2)
        | _ => none
      else if c = 116 then
        match r with
        | 114 :: 117 :: 101 :: r2 => some (.jbool true, r2)
        | _ => none
      else if c = 102 then
        match r with
        | 97 :: 108 :: 115 :: 101 :: r2 => some (.jbool false, r2)
        | _ => none
      else if c = 34 then (parseStrBody r).map (fun p => (J.jstr p.1, p.2))
      else if c = 91 then
        (parseElems fuel true (skipWs r)).map (fun p => (J.jarr p.1, p.2))
      else if c = 123 then
        (parseFields fuel true (skipWs r)).map (fun p => (J.jobj p.1, p.2))
      else parseNum (c :: r)
def parseElems : Nat → Bool → List Nat → Option (List J × List Nat)
  | 0, _, _ => none
  | fuel + 1, first, input =>
    match input with
    | [] => none
    | c :: r =>
      if c = 93 then (if first then some ([], r) else none)
      else
        match parseVal fuel (c :: r) with
        | none => none
        | some (v, r1) =>
          match skipWs r1 with
          | [] => none
          | c2 :: r2 =>
            if c2 = 44 then
              match parseElems fuel false (skipWs r2) with
              | some (vs, r3) => some (v :: vs, r3)
              | none => none
            else if c2 = 93 then some ([v], r2)
            else none
def parseFields : Nat → Bool → List Nat → Option (List (List Nat × J) × List Nat)
  | 0, _, _ => none
  | fuel + 1, first, input =>
    match input with
    | [] => none
    | c :: r =>
      if c = 125 then (if first then some ([], r) else none)
      else if c = 34 then
        match parseStrBody r with
        | none => none
        | some (k, r1) =>
          match skipWs r1 with
          | [] => none
          | c2 :: r2 =>
            if c2 = 58 then
              match parseVal fuel r2 with
              | none => none
              | some (v, r3) =>
                match skipWs r3 with
                | [] => none
                | c3 :: r4 =>
                  if c3 = 44 then
                    match parseFields fuel false (skipWs r4) with
                    | some (fs, r5) => some ((k, v) :: fs, r5)
                    | none => none
                  else if c3 = 125 then some ([(k, v)], r4)
                  else none
            else none
      else none
end

mutual
/-- Fuel sufficient for `parseVal` to read a given value (each nesting
level consumes one unit). -/
def fvV : J → Nat
  | .jarr xs => fvE xs + 1
  | .jobj fs => fvF fs + 1
  | _ => 1
def fvE : List J → Nat
  | [] => 1
  | x :: tl => max (fvV x) (fvE tl) + 1
def fvF : List (List Nat × J) → Nat
  | [] => 1
  | p :: tl => max (fvV p.2) (fvF tl) + 1
end

/-- Input continuations after which a dumped number can be read back
unambiguously: empty, or not starting with a digit (inside dumped arrays
and objects every value is followed by a separator or closing bracket). -/
def restOk : List Nat → Prop
  | [] => True
  | c :: _ => ¬(48 ≤ c ∧ c ≤ 57)

/-- `json.loads`: read one value, allowing surrounding whitespace and
rejecting trailing input. -/
def loads (cps : List Nat) : Option J :=
  match parseVal (cps.length + 1) cps with
  | some (v, r) => if skipWs r = [] then some v else none
  | none => none

/-- `ZStack.serializeMsg` (zstack.py 771-778): a mapping becomes compact
JSON text then UTF-8 bytes, a string becomes UTF-8 bytes, bytes pass
through. -/
def serializeMsg : PyMsg → List Nat
  | .pmap fs => utf8Encode (jdump (.jobj fs))
  | .pstr s => utf8Encode s
  | .pbytes b => b

/-- `ZStack.deserializeMsg` (zstack.py 780-785): decode bytes to text, then
`json.loads` (`none` for either `UnicodeDecodeError` or a JSON error).
When the caller already holds text (`processReceived`), only the `loads`
step runs. -/
def deserializeMsg (msg : List Nat) : Option J :=
  (utf8Decode msg).bind loads

/-! ## Send path (`prepare_to_send`, `transmit`, `send`, ping/pong) -/

/-- `ZStack.pingMessage` is the text `pi`. -/
def pingMessage : List Nat := [112, 105]

/-- `ZStack.pongMessage` is the text `po`. -/
def pongMessage : List Nat := [112, 111]

/-- The diagnostic of `transmit`'s `InvalidMessageExceedingSizeException`
arm ("Cannot transmit message. Error ...", exception detail elided). -/
def cannotTransmitStr : String := "Cannot transmit message"

/-- The diagnostic of `send`'s broadcast serialization failure
("Cannot send message. Error ...", exception detail elided). -/
def cannotSendStr : String := "Cannot send message"

/-- `ZStack.prepare_to_send` (zstack.py 954-957): serialize, then run the
length validator (`valCount` counts the validator calls); `none` when the
validator raises. -/
def prepareToSend (st : ZState) (msg : PyMsg) : ZState × Option (List Nat) :=
  let st1 := { st with valCount := st.valCount + 1 }
  let b := serializeMsg msg
  if lenValid st.config.MSG_LEN_LIMIT b then (st1, some b) else (st1, none)

/-- `ZStack.transmit` (zstack.py 706-737): look the remote up by name; fail
silently when it is absent or has no socket; serialize and validate unless
the caller passed pre-serialized bytes; non-blocking send (EAGAIN →
`(False, None)`); an oversize message yields `(False, diagnostic)`; a
successful handoff to the socket yields `(True, None)` and is recorded in
`sent`. -/
def transmit (st : ZState) (env : Env) (msg : PyMsg) (uid : String)
    (serialized : Bool) : ZState × Bool × Option String :=
  match dlookup uid st.remotes with
  | none => (st, false, none)
  | some remote =>
    if !remote.hasSocket then (st, false, none)
    else
      let pr := if serialized then (st, some (serializeMsg msg)) else prepareToSend st msg
      match pr.2 with
      | none => (pr.1, false, some cannotTransmitStr)
      | some b =>
        if env.sendBlocks uid then (pr.1, false, none)
        else ({ pr.1 with sent := pr.1.sent ++ [(uid, b)] }, true, none)

/-- `ZStack.transmitThroughListener` (zstack.py 739-769): only identities
in `peersWithoutRemotes` are reachable; otherwise serialize, validate and
send `[ident, msg]` through the listener socket without blocking. -/
def transmitThroughListener (st : ZState) (env : Env) (msg : PyMsg)
    (ident : String) : ZState × Bool × Option String :=
  if !(st.peersWithoutRemotes.contains ident) then (st, false, none)
  else
    let pr := prepareToSend st msg
    match pr.2 with
    | none => (pr.1, false, some cannotTransmitStr)
    | some b =>
      if env.listenerBlocks then (pr.1, false, none)
      else ({ pr.1 with sentListener := pr.1.sentListener ++ [(ident, b)] }, true, none)

/-- The broadcast loop of `ZStack.send`: transmit the pre-serialized bytes
to each named remote in turn, collecting the per-remote results and
errors. -/
def broadcastLoop (env : Env) (b : List Nat) :
    ZState → List String → ZState × List Bool × List (Option String)
  | st, [] => (st, [], [])
  | st, uid :: tl =>
    let t := transmit st env (.pbytes b) uid true
    let res := broadcastLoop env b t.1 tl
    (res.1, t.2.1 :: res.2.1, t.2.2 :: res.2.2)

/-- `ZStack.send` (zstack.py 680-704): route through the listener in
listener-only mode; with no remote name serialize and validate once, then
transmit the bytes to every remote and return the conjunction of the
results together with the joined error strings (or `None` when there were
none); with a name delegate to `transmit`. -/
def send (st : ZState) (env : Env) (msg : PyMsg) (remoteName : Option String) :
    ZState × Bool × Option String :=
  if st.onlyListener then
    match remoteName with
    | some n => transmitThroughListener st env msg n
    | none => (st, false, none)
  else
    match remoteName with
    | none =>
      let pr := prepareToSend st msg
      match pr.2 with
      | none => (pr.1, false, some cannotSendStr)
      | some b =>
        let res := broadcastLoop env b pr.1 (pr.1.remotes.map (fun p => p.1))
        let e := res.2.2.filterMap id
        (res.1, res.2.1.all id,
          if e.isEmpty then none else some (String.intercalate "\n" e))
    | some n => transmit st env msg n false

/-- `ZStack.sendPingPong` (zstack.py 639-658): send the two-byte health
message to the named remote (the `Remote`-object overload passes
`remote.name`); the boolean is `send`'s first component. -/
def sendPingPong (st : ZState) (env : Env) (remote : String) (isPing : Bool) :
    ZState × Bool :=
  let msg := if isPing then pingMessage else pongMessage
  let r := send st env (.pstr msg) (some remote)
  (r.1, r.2.1)

/-! ## Receive pipeline (`handlePingPong`, `processReceived`, `service`) -/

/-- `ZStack.handlePingPong` (zstack.py 660-671): a `pi` frame elicits one
pong to the resolved source, a `po` frame marks the sending remote
connected (when its identity is known); both are consumed (`True`). -/
def handlePingPong (st : ZState) (env : Env) (msg : List Nat) (frm : String)
    (ident : String) : ZState × Bool :=
  if msg = pingMessage ∨ msg = pongMessage then
    let st1 := if msg = pingMessage then (sendPingPong st env frm false).1 else st
    let st2 :=
      if msg = pongMessage then
        match dlookup ident st1.remotesByKeys with
        | some r => updRemote r.uid remoteSetConnected st1
        | none => st1
      else st1
    (st2, true)
  else (st, false)

/-- The body of `ZStack.processReceived`'s loop for one dequeued frame
(zstack.py 533-551): resolve the source, filter ping/pong, JSON-decode
(log and skip on failure), `doProcessReceived` (the identity) and hand
`(msg, frm)` to the external handler. -/
def processOne (st : ZState) (env : Env) (msg : List Nat) (ident : String) : ZState :=
  let frm := rejectFrm st ident
  let hp := handlePingPong st env msg frm ident
  if hp.2 then hp.1
  else
    match loads msg with
    | none => hp.1
    | some j => { hp.1 with handledMsgs := hp.1.handledMsgs ++ [(j, frm)] }

/-- The `for x in range(limit)` loop of `processReceived`: `done` counts
the started iterations; the queue argument mirrors `st.rxMsgs`
(`processOne` never touches the queue).  When `popleft` raises `IndexError`
the loop breaks and the function returns `x + 1 = done + 1`; when the loop
runs out of iterations it returns `limit = done`. -/
def processLoopGo (env : Env) :
    ZState → List (List Nat × String) → Nat → Nat → ZState × Nat
  | st, _, 0, done => (st, done)
  | st, [], _ + 1, done => (st, done + 1)
  | st, (msg, ident) :: rest, remaining + 1, done =>
    processLoopGo env (processOne { st with rxMsgs := rest } env msg ident) rest
      remaining (done + 1)

/-- `ZStack.processReceived` (zstack.py 527-554). -/
def processReceived (st : ZState) (env : Env) (limit : Nat) : ZState × Nat :=
  if limit = 0 then (st, 0)
  else processLoopGo env st st.rxMsgs limit 0

/-- `sys.maxsize` on a 64-bit CPython. -/
def sysMaxsize : Nat := 9223372036854775807

/-- Python set add. -/
def insertOnce (x : String) (s : List String) : List String :=
  if s.contains x then s else s ++ [x]

/-- The loop of `ZStack._receiveFromListener` (zstack.py 457-480):
non-blocking multipart receives until the quota is reached or the frame
list (EAGAIN) is exhausted; empty frames are skipped without counting; in
listener-only mode unknown identities are added to `peersWithoutRemotes`;
each counted frame goes through `_verifyAndAppend`. -/
def recvListLoop : ZState → List (String × List Nat) → Nat → Nat → ZState × Nat
  | st, [], _, i => (st, i)
  | st, (ident, msg) :: rest, quota, i =>
    if quota ≤ i then (st, i)
    else if msg = [] then recvListLoop st rest quota i
    else
      let st1 :=
        if st.onlyListener && (dlookup ident st.remotesByKeys).isNone then
          { st with peersWithoutRemotes := insertOnce ident st.peersWithoutRemotes }
        else st
      recvListLoop (verifyAndAppend st1 msg ident).1 rest quota (i + 1)

/-- `ZStack._receiveFromListener`. -/
def receiveFromListener (st : ZState) (env : Env) (quota : Nat) : ZState × Nat :=
  recvListLoop st env.listenerFrames quota 0

/-- The inner loop of `ZStack._receiveFromRemotes` (zstack.py 482-510) for
one remote's socket. -/
def recvRemLoop : ZState → String → List (List Nat) → Nat → Nat → ZState × Nat
  | st, _, [], _, i => (st, i)
  | st, ident, msg :: rest, quota, i =>
    if quota ≤ i then (st, i)
    else if msg = [] then recvRemLoop st ident rest quota i
    else recvRemLoop (verifyAndAppend st msg ident).1 ident rest quota (i + 1)

/-- The outer loop of `ZStack._receiveFromRemotes`: every entry of
`remotesByKeys` with a live socket is drained up to the per-remote
quota. -/
def remRecvAll (env : Env) :
    ZState → List (String × Remote) → Nat → Nat → ZState × Nat
  | st, [], _, total => (st, total)
  | st, (ident, remote) :: tl, quota, total =>
    if !remote.hasSocket then remRecvAll env st tl quota total
    else
      let r := recvRemLoop st ident (env.remoteFrames ident) quota 0
      remRecvAll env r.1 tl quota (total + r.2)

/-- `ZStack._receiveFromRemotes`. -/
def receiveFromRemotes (st : ZState) (env : Env) (quotaPerRemote : Nat) :
    ZState × Nat :=
  remRecvAll env st st.remotesByKeys quotaPerRemote 0

/-- `ZStack.send_heartbeats` (zstack.py 673-678): ping every remote by
name, then record the time. -/
def sendHeartbeatsLoop (env : Env) : ZState → List String → ZState
  | st, [] => st
  | st, n :: tl => sendHeartbeatsLoop env (sendPingPong st env n true).1 tl

/-- `ZStack.send_heartbeats`. -/
def send_heartbeats (st : ZState) (env : Env) : ZState :=
  let st1 := sendHeartbeatsLoop env st (st.remotes.map (fun p => p.1))
  { st1 with last_heartbeat_at := some env.now }

/-- `ZStack._serviceStack` (zstack.py 512-525): heartbeats when enabled and
due, then drain the listener and every remote socket. -/
def serviceStack (st : ZState) (env : Env) : ZState :=
  let st1 :=
    if st.config.ENABLE_HEARTBEATS &&
        (match st.last_heartbeat_at with
         | none => true
         | some t => st.config.HEARTBEAT_FREQ ≤ env.now - t) then
      send_heartbeats st env
    else st
  let st2 := (receiveFromListener st1 env st1.config.DEFAULT_LISTENER_QUOTA).1
  (receiveFromRemotes st2 env st2.config.DEFAULT_SENDER_QUOTA).1

/-- `ZStack.service` (zstack.py 425-442): drain while started; when the
queue is non-empty afterwards, process `limit if limit else sys.maxsize`
frames and return `processReceived`'s count, else return `0`. -/
def service (st : ZState) (env : Env) (limit : Option Nat) : ZState × Nat :=
  let st1 := if st.listener then serviceStack st env else st
  if 0 < st1.rxMsgs.length then
    let pracLimit :=
      match limit with
      | some l => if l ≠ 0 then l else sysMaxsize
      | none => sysMaxsize
    processReceived st1 env pracLimit
  else (st1, 0)

/-! ## Signature verification (`verify`) -/

/-- `ZStack.verify` (zstack.py 791-799): `True` outright in key-sharing
mode; in restricted mode `False` for unknown senders, otherwise the
verifier's verdict on the message (the cryptographic check itself is the
external `oracle`; a missing verifier raises, hence `none`). -/
def verify (st : ZState) (oracle : String → List Nat → Bool) (msg : List Nat)
    (sender : String) : Option Bool :=
  if isKeySharing st then some true
  else
    match dlookup sender st.remotesByKeys with
    | none => some false
    | some r =>
      match r.verKey with
      | none => none
      | some vk =>
        match dlookup vk st.verifiers with
        | some _ => some (oracle vk msg)
        | none => none

/-! ## Outbound connection (`connect`) -/

/-- Modelled from the spec: the exceptions `connect` can raise.
`PublicKeyNotFoundOnDisk` and `VerKeyNotFoundOnDisk`
(`stp_core.network.exceptions`, not among the provided sources) are key
loader errors and distinct from the `ValueError` the insufficient-info
check raises (spec section 7 lists them as separate error kinds). -/
inductive ConnErr where
  | valueError
  | pubKeyNotFound
  | verKeyNotFound
deriving DecidableEq

/-- `ZStack.getPublicKey` (zstack.py 833-837): load the peer's encryption
public key from the `public_keys` directory; `PublicKeyNotFoundOnDisk` when
missing. -/
def getPublicKey (diskPub : String → Option String) (name : String) :
    Except ConnErr String :=
  match diskPub name with
  | some k => .ok k
  | none => .error .pubKeyNotFound

/-- `ZStack.getVerKey` (zstack.py 855-861): load the peer's verification
key from the `verif_keys` directory; when missing, raise
`VerKeyNotFoundOnDisk` in restricted mode and return `None` otherwise. -/
def getVerKey (st : ZState) (diskVer : String → Option String) (name : String) :
    Except ConnErr (Option String) :=
  match diskVer name with
  | some k => .ok (some k)
  | none => if isRestricted st then .error .verKeyNotFound else .ok none

/-- The expression `z85.encode(publicKeyRaw) if publicKeyRaw else
self.getPublicKey(name)` (zstack.py 574-575). -/
def resolvePubKey (diskPub : String → Option String) (name : String)
    (publicKeyRaw : Option String) : Except ConnErr String :=
  match publicKeyRaw with
  | some k => Except.ok k
  | none => getPublicKey diskPub name

/-- The expression `z85.encode(verKeyRaw) if verKeyRaw else
self.getVerKey(name)` (zstack.py 576-577). -/
def resolveVerKey (st : ZState) (diskVer : String → Option String) (name : String)
    (verKeyRaw : Option String) : Except ConnErr (Option String) :=
  match verKeyRaw with
  | some k => Except.ok (some k)
  | none => getVerKey st diskVer name

/-- `ZStack.connect` (zstack.py 559-594): an empty name is a `ValueError`;
an existing remote is reused without consulting the arguments or the disk;
otherwise the public key is taken from the argument or loaded from disk
(`PublicKeyNotFoundOnDisk` propagates), likewise the verify key
(`VerKeyNotFoundOnDisk` in restricted mode), and `ValueError` is raised
when the host address (or a key value) is still missing; then the remote
is added, its socket connected, and an initial ping sent.  Returns the
remote's uid.  The `z85.encode` of raw key arguments is abstracted into
the argument strings. -/
def connect (st : ZState) (env : Env) (diskPub diskVer : String → Option String)
    (name : String) (ha : Option (String × Nat))
    (verKeyRaw publicKeyRaw : Option String) : Except ConnErr (ZState × Nat) :=
  if name = "" then .error .valueError
  else
    match dlookup name st.remotes with
    | some remote =>
      let st1 := updRemote remote.uid remoteConnect st
      let st2 := (sendPingPong st1 env remote.name true).1
      .ok (st2, remote.uid)
    | none =>
      match resolvePubKey diskPub name publicKeyRaw with
      | .error e => .error e
      | .ok publicKey =>
        match resolveVerKey st diskVer name verKeyRaw with
        | .error e => .error e
        | .ok verKey =>
          let missing : Bool :=
            ha.isNone || decide (publicKey = "") ||
              (isRestricted st &&
                (match verKey with
                 | some v => decide (v = "")
                 | none => true))
          if missing then .error .valueError
          else
            let ar := addRemote st name ha verKey publicKey
            let st1 := updRemote ar.2.uid remoteConnect ar.1
            let st2 := (sendPingPong st1 env name true).1
            .ok (st2, ar.2.uid)

/-! ## Operation traces over the remote tables (claim C1) -/

/-- One externally driven stack operation of the kind claim C1 quantifies
over.  `remove name` stands for `removeRemote(self.remotes[name])` (a
no-op when the name is unknown, as in `removeRemote` itself). -/
inductive SOp where
  | add (name : String) (ha : Option (String × Nat)) (verkey : Option String)
      (pubkey : String)
  | remove (name : String)
  | conn (name : String) (ha : Option (String × Nat))
      (verKeyRaw publicKeyRaw : Option String)
  | closeOp

/-- Apply one operation; a `connect` that raises leaves the state
unchanged (every mutation in `connect` happens after its checks). -/
def applySOp (env : Env) (diskPub diskVer : String → Option String)
    (st : ZState) : SOp → ZState
  | .add n ha vk pk => (addRemote st n ha vk pk).1
  | .remove n =>
    match dlookup n st.remotes with
    | some r => removeRemote st r
    | none => st
  | .conn n ha vkr pkr =>
    match connect st env diskPub diskVer n ha vkr pkr with
    | .ok res => res.1
    | .error _ => st
  | .closeOp => close st

/-- Run a trace of operations. -/
def runOps (env : Env) (diskPub diskVer : String → Option String) :
    ZState → List SOp → ZState
  | st, [] => st
  | st, op :: tl => runOps env diskPub diskVer (applySOp env diskPub diskVer st op) tl

/-- The per-`addRemote` side condition of the amended claim C1: the name is
fresh and so is the public key, or the name is re-added with the very key
it already maps to. -/
def addOk (st : ZState) (name pk : String) : Bool :=
  (match dlookup name st.remotes with
   | some r => decide (r.publicKey = pk)
   | none => true) &&
  (match dlookup pk st.remotesByKeys with
   | some r => decide (r.name = name)
   | none => true)

/-- The resolved public key a successful fresh `connect` would insert. -/
def connPk (diskPub : String → Option String) (name : String)
    (publicKeyRaw : Option String) : String :=
  match publicKeyRaw with
  | some k => k
  | none => (diskPub name).getD ""

/-- The side condition for one operation: only operations that insert into
the tables are restricted. -/
def opOk (env : Env) (diskPub diskVer : String → Option String) (st : ZState) :
    SOp → Bool
  | .add n _ _ pk => addOk st n pk
  | .remove _ => true
  | .conn n ha vkr pkr =>
    match dlookup n st.remotes with
    | some _ => true
    | none =>
      match connect st env diskPub diskVer n ha vkr pkr with
      | .ok _ => addOk st n (connPk diskPub n pkr)
      | .error _ => true
  | .closeOp => true

/-- The side condition along a whole trace. -/
def opsOk (env : Env) (diskPub diskVer : String → Option String) :
    ZState → List SOp → Bool
  | _, [] => true
  | st, op :: tl =>
    opOk env diskPub diskVer st op &&
      opsOk env diskPub diskVer (applySOp env diskPub diskVer st op) tl

/-- The cyclic-index invariant of claim C1 (with the auxiliary facts that
keys match the stored remotes' fields): every `remotesByKeys` entry is
keyed by its remote's public key and points to that remote's entry in
`remotes`, and every `remotes` entry is keyed by its remote's name and is
indexed under its public key in `remotesByKeys`. -/
def MapsInv (st : ZState) : Prop :=
  (∀ k r, dlookup k st.remotesByKeys = some r →
    r.publicKey = k ∧ dlookup r.name st.remotes = some r) ∧
  (∀ n r, dlookup n st.remotes = some r →
    r.name = n ∧ dlookup r.publicKey st.remotesByKeys = some r)

/-! ## Concrete states for witnesses and counterexamples -/

/-- An environment with nothing to receive and no send ever blocking. -/
def env0 : Env :=
  { now := 0, listenerFrames := [], remoteFrames := fun _ => []
    sendBlocks := fun _ => false, listenerBlocks := false }

/-- An environment in which every non-blocking send raises EAGAIN. -/
def envBlock : Env :=
  { env0 with sendBlocks := fun _ => true }

/-- A remote named `B` with a live socket. -/
def remB : Remote :=
  { name := "B", ha := none, verKey := none, publicKey := "kB"
    hasSocket := true, isConnected := false, uid := 0 }

/-- The remote `B` before `connect`: no socket. -/
def remBNoSock : Remote :=
  { remB with hasSocket := false }

/-- A stack that knows the remote `B` (socket attached). -/
def stB : ZState :=
  { mkInit cfg0 false true with
    nextUid := 1, remotes := [("B", remB)], remotesByKeys := [("kB", remB)] }

/-- A stack that knows the remote `B` (no socket). -/
def stBNoSock : ZState :=
  { mkInit cfg0 false true with
    nextUid := 1, remotes := [("B", remBNoSock)], remotesByKeys := [("kB", remBNoSock)] }

/-- `cfg0` with a one-byte message length limit. -/
def cfgTiny : Config :=
  { cfg0 with MSG_LEN_LIMIT := 1 }

/-- The stack `stB` under the one-byte length limit. -/
def stBTiny : ZState :=
  { stB with config := cfgTiny }

/-- A started stack with one queued `po` frame from an unknown sender. -/
def c3State : ZState :=
  { mkInit cfg0 false true with listener := true, rxMsgs := [(pongMessage, "X")] }

/-! # Theorems -/

/-! ## Association list lemmas -/

@[simp] theorem dlookup_nil {V : Type} (k : String) : dlookup (V := V) k [] = none := rfl

theorem dlookup_dinsert {V : Type} (k q : String) (v : V) (m : List (String × V)) :
    dlookup q (dinsert k v m) = if q = k then some v else dlookup q m := by
  induction m with
  | nil => simp [dinsert, dlookup]
  | cons p tl ih =>
    obtain ⟨a, w⟩ := p
    by_cases hak : a = k
    · subst hak
      by_cases hqk : q = a <;> simp [dinsert, dlookup, hqk]
    · by_cases hqa : q = a
      · subst hqa
        simp [dinsert, dlookup, hak, fun h : q = k => hak h]
      · simp [dinsert, dlookup, hak, hqa, ih]

theorem dlookup_dpop {V : Type} (k q : String) (m : List (String × V)) :
    dlookup q (dpop k m) = if q = k then none else dlookup q m := by
  induction m with
  | nil => simp [dpop, dlookup]
  | cons p tl ih =>
    obtain ⟨a, w⟩ := p
    by_cases hak : a = k
    · subst hak
      by_cases hqk : q = a
      · subst hqk
        simpa [dpop, dlookup] using ih
      · simp [dpop, dlookup, hqk, ih]
    · by_cases hqa : q = a
      · subst hqa
        simp [dpop, dlookup, hak, fun h : q = k => hak h]
      · simp [dpop, dlookup, hak, hqa, ih]

theorem dlookup_map_val {V W : Type} (g : V → W) (q : String) (m : List (String × V)) :
    dlookup q (m.map (fun p => (p.1, g p.2))) = (dlookup q m).map g := by
  induction m with
  | nil => simp [dlookup]
  | cons p tl ih => by_cases h : q = p.1 <;> simp [dlookup, h, ih]

/-! ## Claim C2 -/

/-- C2, counterexample: `stop()` on a started stack whose
`peersWithoutRemotes` holds one identity leaves that set untouched, so the
claim "after `stop()` ... the `peersWithoutRemotes` set is empty" is false:
neither `close` nor `stop` ever clears `peersWithoutRemotes` (they clear
`_conns` instead). -/
theorem c2_stop_counterexample :
    (stop c2State).listener = false ∧ (stop c2State).remotes = [] ∧
      (stop c2State).remotesByKeys = [] ∧
      (stop c2State).peersWithoutRemotes = ["peerA"] ∧
      ¬(stop c2State).peersWithoutRemotes = [] := by
  refine ⟨rfl, rfl, rfl, rfl, ?_⟩
  intro h
  simp [stop, close, c2State] at h

/-- C2, amended: after `stop()` on a started stack the `remotes` map, the
`remotesByKeys` map and the `_conns` set are empty and the listener is
`None`, while `peersWithoutRemotes` is left exactly as it was. -/
theorem c2_stop_amended (st : ZState) (h : st.listener = true) :
    (stop st).remotes = [] ∧ (stop st).remotesByKeys = [] ∧
      (stop st).listener = false ∧ (stop st).conns = [] ∧
      (stop st).peersWithoutRemotes = st.peersWithoutRemotes := by
  simp [stop, close, h]

/-- C2, witness: the amended theorem applied to the concrete started
stack `c2State`. -/
theorem c2_stop_amended_witness :
    c2State.listener = true ∧
      ((stop c2State).remotes = [] ∧ (stop c2State).remotesByKeys = [] ∧
        (stop c2State).listener = false ∧ (stop c2State).conns = [] ∧
        (stop c2State).peersWithoutRemotes = c2State.peersWithoutRemotes) :=
  ⟨rfl, c2_stop_amended c2State rfl⟩

/-! ## UTF-8 lemmas -/

theorem decodeOne_sound {bs : List Nat} {c : Nat} {rest : List Nat}
    (h : decodeOne bs = some (c, rest)) :
    ValidCp c ∧ rest.length < bs.length := by
  match bs with
  | [] => simp [decodeOne] at h
  | b :: tl =>
    simp only [decodeOne] at h
    by_cases h1 : b < 0x80
    · simp only [if_pos h1, Option.some.injEq, Prod.mk.injEq] at h
      obtain ⟨rfl, rfl⟩ := h
      refine ⟨⟨by omega, by omega⟩, by simp⟩
    · simp only [if_neg h1] at h
      by_cases h2 : b < 0xC2
      · simp [h2] at h
      · simp only [if_neg h2] at h
        by_cases h3 : b < 0xE0
        · simp only [if_pos h3] at h
          match tl with
          | [] => simp at h
          | b1 :: tl1 =>
            by_cases hc1 : contByte b1
            · simp only [if_pos hc1, Option.some.injEq, Prod.mk.injEq] at h
              obtain ⟨rfl, rfl⟩ := h
              have hb1 : 0x80 ≤ b1 ∧ b1 < 0xC0 := by
                simpa [contByte] using hc1
              refine ⟨⟨by omega, by omega⟩, by simp only [List.length_cons]; omega⟩
            · simp [hc1] at h
        · simp only [if_neg h3] at h
          by_cases h4 : b < 0xF0
          · simp only [if_pos h4] at h
            match tl with
            | [] => simp at h
            | [b1] => simp at h
            | b1 :: b2 :: tl2 =>
              by_cases hc1 : contByte b1 && contByte b2
              · simp only [if_pos hc1] at h
                have hb12 : (0x80 ≤ b1 ∧ b1 < 0xC0) ∧ 0x80 ≤ b2 ∧ b2 < 0xC0 := by
                  simpa [contByte] using hc1
                by_cases h5 : (b - 0xE0) * 0x1000 + (b1 - 0x80) * 0x40 + (b2 - 0x80) < 0x800
                · simp [h5] at h
                · simp only [if_neg h5] at h
                  by_cases h6 : 0xD800 ≤ (b - 0xE0) * 0x1000 + (b1 - 0x80) * 0x40 + (b2 - 0x80) ∧
                      (b - 0xE0) * 0x1000 + (b1 - 0x80) * 0x40 + (b2 - 0x80) < 0xE000
                  · simp [h6] at h
                  · simp only [if_neg h6, Option.some.injEq, Prod.mk.injEq] at h
                    obtain ⟨rfl, rfl⟩ := h
                    refine ⟨⟨by omega, by omega⟩, by simp only [List.length_cons]; omega⟩
              · simp [hc1] at h
          · simp only [if_neg h4] at h
            by_cases h7 : b < 0xF5
            · simp only [if_pos h7] at h
              match tl with
              | [] => simp at h
              | [b1] => simp at h
              | [b1, b2] => simp at h
              | b1 :: b2 :: b3 :: tl3 =>
                by_cases hc1 : contByte b1 && contByte b2 && contByte b3
                · simp only [if_pos hc1] at h
                  have hb123 : ((0x80 ≤ b1 ∧ b1 < 0xC0) ∧ 0x80 ≤ b2 ∧ b2 < 0xC0) ∧
                      0x80 ≤ b3 ∧ b3 < 0xC0 := by
                    simpa [contByte] using hc1
                  by_cases h5 : (b - 0xF0) * 0x40000 + (b1 - 0x80) * 0x1000 +
                      (b2 - 0x80) * 0x40 + (b3 - 0x80) < 0x10000
                  · simp [h5] at h
                  · simp only [if_neg h5] at h
                    by_cases h6 : 0x10FFFF < (b - 0xF0) * 0x40000 + (b1 - 0x80) * 0x1000 +
                        (b2 - 0x80) * 0x40 + (b3 - 0x80)
                    · simp [h6] at h
                    · simp only [if_neg h6, Option.some.injEq, Prod.mk.injEq] at h
                      obtain ⟨rfl, rfl⟩ := h
                      refine ⟨⟨by omega, by omega⟩, by simp only [List.length_cons]; omega⟩
                · simp [hc1] at h
            · simp [h7] at h

theorem utf8DecodeGo_sound :
    ∀ (n : Nat) (bs cs : List Nat), bs.length ≤ n →
      utf8DecodeGo n bs = some cs →
      cs.length ≤ bs.length ∧ ∀ c ∈ cs, ValidCp c := by
  intro n
  induction n with
  | zero =>
    intro bs cs hle h
    cases bs with
    | nil =>
      simp only [utf8DecodeGo, Option.some.injEq] at h
      subst h
      simp
    | cons b tl => simp at hle
  | succ m ih =>
    intro bs cs hle h
    cases bs with
    | nil =>
      simp only [utf8DecodeGo, Option.some.injEq] at h
      subst h
      simp
    | cons b tl =>
      simp only [utf8DecodeGo] at h
      cases hd : decodeOne (b :: tl) with
      | none => simp [hd] at h
      | some pr =>
        obtain ⟨c, rest⟩ := pr
        simp only [hd, Option.map_eq_some'] at h
        obtain ⟨cs1, hgo, rfl⟩ := h
        have hs := decodeOne_sound hd
        have hlen1 : rest.length ≤ m := by
          have := hs.2
          simp at this hle ⊢
          omega
        have hr := ih rest cs1 hlen1 hgo
        constructor
        · have := hs.2
          simp at this ⊢
          omega
        · intro x hx
          rcases List.mem_cons.mp hx with rfl | hx1
          · exact hs.1
          · exact hr.2 x hx1

theorem utf8Decode_sound {bs cs : List Nat} (h : utf8Decode bs = some cs) :
    cs.length ≤ bs.length ∧ ∀ c ∈ cs, ValidCp c :=
  utf8DecodeGo_sound bs.length bs cs le_rfl h

theorem utf8Decode_ascii :
    ∀ (cs : List Nat), (∀ c ∈ cs, c < 0x80) → utf8Decode cs = some cs := by
  intro cs
  induction cs with
  | nil => intro _; rfl
  | cons c tl ih =>
    intro h
    have hc : c < 0x80 := h c (by simp)
    have htl := ih (fun x hx => h x (by simp [hx]))
    simp only [utf8Decode, List.length_cons, utf8DecodeGo]
    rw [show decodeOne (c :: tl) = some (c, tl) by simp [decodeOne, hc]]
    simp only [utf8Decode] at htl
    simp [htl]

theorem utf8Encode_ascii :
    ∀ (cs : List Nat), (∀ c ∈ cs, c < 0x80) → utf8Encode cs = cs := by
  intro cs
  induction cs with
  | nil => intro _; rfl
  | cons c tl ih =>
    intro h
    have hc : c < 0x80 := h c (by simp)
    have htl := ih (fun x hx => h x (by simp [hx]))
    simp [utf8Encode, encChar, hc, htl]

/-! ## Claim C4 -/

/-- C4: a drained frame that exceeds `MSG_LEN_LIMIT` or is not valid UTF-8
is not enqueued, and the rejection handler is called exactly once with the
diagnostic reason and the resolved peer name (or raw identity); and
`_verifyAndAppend` preserves the queue invariant that every enqueued entry
is within the length limit and consists of Unicode scalar values. -/
theorem c4_verifyAndAppend (st : ZState) (msg : List Nat) (ident : String) :
    ((st.config.MSG_LEN_LIMIT < msg.length ∨ utf8Decode msg = none) →
      (verifyAndAppend st msg ident).1.rxMsgs = st.rxMsgs ∧
        (verifyAndAppend st msg ident).1.rejected = st.rejected ++
          [((if st.config.MSG_LEN_LIMIT < msg.length then RejectReason.tooLarge
            else RejectReason.badUtf8), rejectFrm st ident)] ∧
        (verifyAndAppend st msg ident).2 = false) ∧
    (QueueWF st.config.MSG_LEN_LIMIT st.rxMsgs →
      QueueWF st.config.MSG_LEN_LIMIT (verifyAndAppend st msg ident).1.rxMsgs) := by
  constructor
  · intro hbad
    by_cases hlen : st.config.MSG_LEN_LIMIT < msg.length
    · have hlv : lenValid st.config.MSG_LEN_LIMIT msg = false := by
        simp [lenValid]
        omega
      simp [verifyAndAppend, hlv, hlen]
    · have hlv : lenValid st.config.MSG_LEN_LIMIT msg = true := by
        simp [lenValid]
        omega
      rcases hbad with h | h
      · omega
      · simp [verifyAndAppend, hlv, h, hlen]
  · intro hwf
    by_cases hlv : lenValid st.config.MSG_LEN_LIMIT msg
    · cases hd : utf8Decode msg with
      | none => simpa [verifyAndAppend, hlv, hd] using hwf
      | some decoded =>
        have hs := utf8Decode_sound hd
        have hlen : msg.length ≤ st.config.MSG_LEN_LIMIT := by
          simpa [lenValid] using hlv
        simp only [verifyAndAppend, hlv, hd, Bool.not_true, Bool.false_eq_true,
          if_false]
        intro e he
        rcases List.mem_append.mp he with he1 | he2
        · exact hwf e he1
        · have : e = (decoded, ident) := by simpa using he2
          subst this
          exact ⟨le_trans hs.1 hlen, hs.2⟩
    · simpa [verifyAndAppend, hlv] using hwf

/-- C4, witness: the theorem applied to a fresh stack and the single byte
`0xF5` (never valid UTF-8): the frame is dropped, rejected once, and the
(empty) queue invariant is preserved. -/
theorem c4_verifyAndAppend_witness :
    ((mkInit cfg0 false true).config.MSG_LEN_LIMIT < ([0xF5] : List Nat).length ∨
        utf8Decode [0xF5] = none) ∧
      QueueWF (mkInit cfg0 false true).config.MSG_LEN_LIMIT
        (mkInit cfg0 false true).rxMsgs ∧
      ((verifyAndAppend (mkInit cfg0 false true) [0xF5] "A").1.rxMsgs =
          (mkInit cfg0 false true).rxMsgs ∧
        (verifyAndAppend (mkInit cfg0 false true) [0xF5] "A").1.rejected =
          (mkInit cfg0 false true).rejected ++
            [((if (mkInit cfg0 false true).config.MSG_LEN_LIMIT <
                ([0xF5] : List Nat).length then RejectReason.tooLarge
              else RejectReason.badUtf8), rejectFrm (mkInit cfg0 false true) "A")] ∧
        (verifyAndAppend (mkInit cfg0 false true) [0xF5] "A").2 = false) ∧
      QueueWF (mkInit cfg0 false true).config.MSG_LEN_LIMIT
        (verifyAndAppend (mkInit cfg0 false true) [0xF5] "A").1.rxMsgs :=
  ⟨Or.inr (by decide), by simp [QueueWF, mkInit],
    (c4_verifyAndAppend (mkInit cfg0 false true) [0xF5] "A").1 (Or.inr (by decide)),
    (c4_verifyAndAppend (mkInit cfg0 false true) [0xF5] "A").2
      (by simp [QueueWF, mkInit])⟩

/-! ## Claim C3 -/

/-- C3: `service` over-reports by one whenever the queue is drained before
the limit: with exactly one queued frame (and nothing to drain), `service`
processes that one frame (the queue is empty afterwards) yet returns `2`,
both with `limit=None` and with `limit=5` — `processReceived`'s
`return x + 1` after the `IndexError` break counts the iteration that
found the queue empty, contradicting `service`'s own docstring ("the
number of messages processed"). -/
theorem c3_service_returns_wrong_count :
    c3State.rxMsgs.length = 1 ∧
      (service c3State env0 none).1.rxMsgs = [] ∧
      (service c3State env0 none).2 = 2 ∧
      (service c3State env0 (some 5)).2 = 2 ∧
      ¬(service c3State env0 none).2 = c3State.rxMsgs.length := by
  refine ⟨rfl, rfl, rfl, rfl, by decide⟩

/-! ## Claim C10 -/

/-- C10: in key-sharing mode `verify` returns `True` for every message and
sender without consulting the signature oracle; in restricted mode it
returns `False` whenever the sender is not a key of `remotesByKeys`. -/
theorem c10_verify (st : ZState) (oracle : String → List Nat → Bool)
    (msg : List Nat) (sender : String) :
    (isKeySharing st = true → verify st oracle msg sender = some true) ∧
    (isKeySharing st = false → dlookup sender st.remotesByKeys = none →
      verify st oracle msg sender = some false) := by
  constructor
  · intro h
    simp [verify, h]
  · intro h hnone
    simp [verify, h, hnone]

/-- C10, witness: a key-sharing stack (authenticator configured
allow-any) answers `True`; a restricted stack answers `False` for an
unknown sender; the oracle rejecting everything plays no role. -/
theorem c10_verify_witness :
    isKeySharing { mkInit cfg0 false true with auth := some true } = true ∧
      verify { mkInit cfg0 false true with auth := some true }
        (fun _ _ => false) [1] "A" = some true ∧
      isKeySharing (mkInit cfg0 false true) = false ∧
      dlookup "A" (mkInit cfg0 false true).remotesByKeys = none ∧
      verify (mkInit cfg0 false true) (fun _ _ => false) [1] "A" = some false :=
  ⟨rfl,
    (c10_verify { mkInit cfg0 false true with auth := some true }
      (fun _ _ => false) [1] "A").1 rfl,
    rfl, rfl,
    (c10_verify (mkInit cfg0 false true) (fun _ _ => false) [1] "A").2 rfl rfl⟩

/-! ## Claim C5 -/

/-- C5: the result protocol of unicast `transmit`: `(False, None)` for a
missing remote, an uninitialised socket, or EAGAIN; `(False, diagnostic)`
when serialization exceeds the length limit; `(True, None)` on a
successful send (which also appends the bytes to the wire log). -/
theorem c5_transmit (st : ZState) (env : Env) (msg : PyMsg) (uid : String) :
    (dlookup uid st.remotes = none →
      transmit st env msg uid false = (st, false, none)) ∧
    (∀ r, dlookup uid st.remotes = some r → r.hasSocket = false →
      transmit st env msg uid false = (st, false, none)) ∧
    (∀ r, dlookup uid st.remotes = some r → r.hasSocket = true →
      st.config.MSG_LEN_LIMIT < (serializeMsg msg).length →
      transmit st env msg uid false =
        ({ st with valCount := st.valCount + 1 }, false, some cannotTransmitStr)) ∧
    (∀ r, dlookup uid st.remotes = some r → r.hasSocket = true →
      (serializeMsg msg).length ≤ st.config.MSG_LEN_LIMIT →
      env.sendBlocks uid = true →
      transmit st env msg uid false =
        ({ st with valCount := st.valCount + 1 }, false, none)) ∧
    (∀ r, dlookup uid st.remotes = some r → r.hasSocket = true →
      (serializeMsg msg).length ≤ st.config.MSG_LEN_LIMIT →
      env.sendBlocks uid = false →
      transmit st env msg uid false =
        ({ st with
            valCount := st.valCount + 1
            sent := st.sent ++ [(uid, serializeMsg msg)] }, true, none)) := by
  refine ⟨?_, ?_, ?_, ?_, ?_⟩
  · intro h
    simp [transmit, h]
  · intro r hr hs
    simp [transmit, hr, hs]
  · intro r hr hs hlen
    have hlv : lenValid st.config.MSG_LEN_LIMIT (serializeMsg msg) = false := by
      simp [lenValid]
      omega
    simp [transmit, hr, hs, prepareToSend, hlv]
  · intro r hr hs hlen hb
    have hlv : lenValid st.config.MSG_LEN_LIMIT (serializeMsg msg) = true := by
      simp [lenValid, hlen]
    simp [transmit, hr, hs, prepareToSend, hlv, hb]
  · intro r hr hs hlen hb
    have hlv : lenValid st.config.MSG_LEN_LIMIT (serializeMsg msg) = true := by
      simp [lenValid, hlen]
    simp [transmit, hr, hs, prepareToSend, hlv, hb]

/-- C5, witness: the five arms of the protocol at concrete stacks: unknown
remote, socketless remote, a two-byte ping under a one-byte limit, EAGAIN,
and a successful send. -/
theorem c5_transmit_witness :
    (dlookup "B" (mkInit cfg0 false true).remotes = none ∧
      transmit (mkInit cfg0 false true) env0 (.pstr pingMessage) "B" false =
        (mkInit cfg0 false true, false, none)) ∧
    (dlookup "B" stBNoSock.remotes = some remBNoSock ∧ remBNoSock.hasSocket = false ∧
      transmit stBNoSock env0 (.pstr pingMessage) "B" false = (stBNoSock, false, none)) ∧
    (dlookup "B" stBTiny.remotes = some remB ∧ remB.hasSocket = true ∧
      stBTiny.config.MSG_LEN_LIMIT < (serializeMsg (.pstr pingMessage)).length ∧
      transmit stBTiny env0 (.pstr pingMessage) "B" false =
        ({ stBTiny with valCount := stBTiny.valCount + 1 }, false,
          some cannotTransmitStr)) ∧
    (envBlock.sendBlocks "B" = true ∧
      transmit stB envBlock (.pstr pingMessage) "B" false =
        ({ stB with valCount := stB.valCount + 1 }, false, none)) ∧
    (transmit stB env0 (.pstr pingMessage) "B" false =
      ({ stB with
          valCount := stB.valCount + 1
          sent := stB.sent ++ [("B", serializeMsg (.pstr pingMessage))] }, true, none)) := by
  refine ⟨⟨rfl, ?_⟩, ⟨rfl, rfl, ?_⟩, ⟨rfl, rfl, by decide, ?_⟩, ⟨rfl, ?_⟩, ?_⟩
  · exact (c5_transmit (mkInit cfg0 false true) env0 (.pstr pingMessage) "B").1 rfl
  · exact (c5_transmit stBNoSock env0 (.pstr pingMessage) "B").2.1 remBNoSock rfl rfl
  · exact (c5_transmit stBTiny env0 (.pstr pingMessage) "B").2.2.1 remB rfl rfl (by decide)
  · exact (c5_transmit stB envBlock (.pstr pingMessage) "B").2.2.2.1 remB rfl rfl
      (by decide) rfl
  · exact (c5_transmit stB env0 (.pstr pingMessage) "B").2.2.2.2 remB rfl rfl
      (by decide) rfl

/-! ## Claim C7 -/

/-- C7: for a queued `pi` or `po` frame from a known, socket-attached,
non-blocking remote: the ping elicits exactly one `po` transmitted to the
sender and the pong marks the sender's remote connected (visible through
both tables); neither frame reaches the external message handler. -/
theorem c7_pingpong (st : ZState) (env : Env) (ident : String) (r : Remote)
    (hol : st.onlyListener = false)
    (hbk : dlookup ident st.remotesByKeys = some r)
    (hrm : dlookup r.name st.remotes = some r)
    (hsock : r.hasSocket = true)
    (hnb : env.sendBlocks r.name = false)
    (hlim : 2 ≤ st.config.MSG_LEN_LIMIT) :
    ((processOne st env pingMessage ident).sent = st.sent ++ [(r.name, pongMessage)] ∧
      (processOne st env pingMessage ident).handledMsgs = st.handledMsgs) ∧
    ((processOne st env pongMessage ident).sent = st.sent ∧
      (processOne st env pongMessage ident).handledMsgs = st.handledMsgs ∧
      dlookup ident (processOne st env pongMessage ident).remotesByKeys =
        some { r with isConnected := true } ∧
      dlookup r.name (processOne st env pongMessage ident).remotes =
        some { r with isConnected := true }) := by
  have hser : serializeMsg (.pstr pongMessage) = pongMessage := rfl
  have hlen2 : pongMessage.length = 2 := rfl
  have hlv : lenValid st.config.MSG_LEN_LIMIT pongMessage = true := by
    simp only [lenValid, hlen2, decide_eq_true_eq]
    omega
  have hfrm : rejectFrm st ident = r.name := by
    simp [rejectFrm, hbk]
  have hppr : ¬(pingMessage = pongMessage) := by decide
  have hpp : ¬(pongMessage = pingMessage) := by decide
  constructor
  · constructor
    · simp [processOne, handlePingPong, hfrm, sendPingPong, send, hol, transmit,
        hrm, hsock, prepareToSend, hlv, hnb, hser, hppr]
    · simp [processOne, handlePingPong, hfrm, sendPingPong, send, hol, transmit,
        hrm, hsock, prepareToSend, hlv, hnb, hser, hppr]
  · have hpo : processOne st env pongMessage ident =
        updRemote r.uid remoteSetConnected st := by
      simp [processOne, handlePingPong, hpp, hbk, hfrm]
    refine ⟨?_, ?_, ?_, ?_⟩
    · simp [hpo, updRemote]
    · simp [hpo, updRemote]
    · rw [hpo]
      simp only [updRemote]
      rw [dlookup_map_val (fun x => if x.uid = r.uid then remoteSetConnected x else x)
        ident st.remotesByKeys]
      rw [hbk]
      simp [remoteSetConnected]
    · rw [hpo]
      simp only [updRemote]
      rw [dlookup_map_val (fun x => if x.uid = r.uid then remoteSetConnected x else x)
        r.name st.remotes]
      rw [hrm]
      simp [remoteSetConnected]

/-- C7, witness: the theorem at the concrete stack `stB` whose remote `B`
(identity `kB`) has a live socket. -/
theorem c7_pingpong_witness :
    (stB.onlyListener = false ∧ dlookup "kB" stB.remotesByKeys = some remB ∧
      dlookup remB.name stB.remotes = some remB ∧ remB.hasSocket = true ∧
      env0.sendBlocks remB.name = false ∧ 2 ≤ stB.config.MSG_LEN_LIMIT) ∧
    (((processOne stB env0 pingMessage "kB").sent =
        stB.sent ++ [(remB.name, pongMessage)] ∧
      (processOne stB env0 pingMessage "kB").handledMsgs = stB.handledMsgs) ∧
    ((processOne stB env0 pongMessage "kB").sent = stB.sent ∧
      (processOne stB env0 pongMessage "kB").handledMsgs = stB.handledMsgs ∧
      dlookup "kB" (processOne stB env0 pongMessage "kB").remotesByKeys =
        some { remB with isConnected := true } ∧
      dlookup remB.name (processOne stB env0 pongMessage "kB").remotes =
        some { remB with isConnected := true })) :=
  ⟨⟨rfl, rfl, rfl, rfl, rfl, by decide⟩,
    c7_pingpong stB env0 "kB" remB rfl rfl rfl rfl rfl (by decide)⟩

/-! ## Claim C6 -/

theorem all_map_id {A : Type} (l : List A) (f : A → Bool) :
    (l.map f).all id = l.all f := by
  induction l with
  | nil => simp
  | cons x tl ih => simp [ih]

theorem filterMap_id_map_none {A : Type} (l : List A) :
    (l.map (fun _ => (none : Option String))).filterMap id = [] := by
  induction l with
  | nil => simp
  | cons x tl ih => simp [ih]

theorem broadcastLoop_spec (env : Env) (b : List Nat) :
    ∀ (entries : List (String × Remote)) (st1 : ZState),
      (∀ p ∈ entries, dlookup p.1 st1.remotes = some p.2) →
      broadcastLoop env b st1 (entries.map (fun p => p.1)) =
        ({ st1 with sent := st1.sent ++
                      (entries.filter
                        (fun p => p.2.hasSocket && !(env.sendBlocks p.1))).map
                        (fun p => (p.1, b)) },
          entries.map (fun p => p.2.hasSocket && !(env.sendBlocks p.1)),
          entries.map (fun _ => (none : Option String))) := by
  intro entries
  induction entries with
  | nil =>
    intro st1 _
    simp [broadcastLoop]
  | cons p tl ih =>
    intro st1 hlk
    obtain ⟨uid, r⟩ := p
    have hp : dlookup uid st1.remotes = some r := hlk (uid, r) (by simp)
    by_cases hs : r.hasSocket
    · by_cases hb : env.sendBlocks uid
      · have ht : transmit st1 env (.pbytes b) uid true = (st1, false, none) := by
          simp [transmit, hp, hs, serializeMsg, hb]
        simp [broadcastLoop, ht, hs, hb, ih st1 (fun q hq => hlk q (by simp [hq]))]
      · have ht : transmit st1 env (.pbytes b) uid true =
            ({ st1 with sent := st1.sent ++ [(uid, b)] }, true, none) := by
          simp [transmit, hp, hs, serializeMsg, hb]
        have ih2 := ih { st1 with sent := st1.sent ++ [(uid, b)] }
          (fun q hq => hlk q (by simp [hq]))
        simp [broadcastLoop, ht, hs, hb, ih2]
    · have ht : transmit st1 env (.pbytes b) uid true = (st1, false, none) := by
        simp [transmit, hp, hs]
      simp [broadcastLoop, ht, hs, ih st1 (fun q hq => hlk q (by simp [hq]))]

/-- C6: broadcast `send` (no remote name, not listener-only) serializes and
length-validates exactly once (`valCount` increases by one in both arms);
a validation failure yields `(False, diagnostic)` with no remote contacted;
otherwise the pre-serialized bytes are transmitted to every remote in
table order (the wire log gains exactly the per-remote successes) and the
result is the conjunction of the per-remote outcomes, with `None` for the
error component since no transmit arm of the broadcast produces an error
string. -/
theorem c6_send_broadcast (st : ZState) (env : Env) (msg : PyMsg)
    (hol : st.onlyListener = false)
    (hlk : ∀ p ∈ st.remotes, dlookup p.1 st.remotes = some p.2) :
    (st.config.MSG_LEN_LIMIT < (serializeMsg msg).length →
      send st env msg none =
        ({ st with valCount := st.valCount + 1 }, false, some cannotSendStr)) ∧
    ((serializeMsg msg).length ≤ st.config.MSG_LEN_LIMIT →
      send st env msg none =
        ({ st with
            valCount := st.valCount + 1
            sent := st.sent ++
              (st.remotes.filter (fun p => p.2.hasSocket && !(env.sendBlocks p.1))).map
                (fun p => (p.1, serializeMsg msg)) },
          st.remotes.all (fun p => p.2.hasSocket && !(env.sendBlocks p.1)),
          none)) := by
  constructor
  · intro hlen
    have hlv : lenValid st.config.MSG_LEN_LIMIT (serializeMsg msg) = false := by
      simp only [lenValid, decide_eq_false_iff_not]
      omega
    simp [send, hol, prepareToSend, hlv]
  · intro hlen
    have hlv : lenValid st.config.MSG_LEN_LIMIT (serializeMsg msg) = true := by
      simp only [lenValid, decide_eq_true_eq]
      omega
    have hb := broadcastLoop_spec env (serializeMsg msg) st.remotes
      { st with valCount := st.valCount + 1 } hlk
    rw [hol] at hb
    simp [send, hol, prepareToSend, hlv, filterMap_id_map_none, all_map_id, hb]

/-- C6, witness: the two arms at concrete stacks: a two-byte ping under a
one-byte limit fails validation and contacts nobody; under the default
limit the broadcast reaches the single remote `B` and succeeds. -/
theorem c6_send_broadcast_witness :
    (stBTiny.config.MSG_LEN_LIMIT < (serializeMsg (.pstr pingMessage)).length ∧
      send stBTiny env0 (.pstr pingMessage) none =
        ({ stBTiny with valCount := stBTiny.valCount + 1 }, false,
          some cannotSendStr)) ∧
    ((serializeMsg (.pstr pingMessage)).length ≤ stB.config.MSG_LEN_LIMIT ∧
      send stB env0 (.pstr pingMessage) none =
        ({ stB with
            valCount := stB.valCount + 1
            sent := stB.sent ++
              (stB.remotes.filter (fun p => p.2.hasSocket && !(env0.sendBlocks p.1))).map
                (fun p => (p.1, serializeMsg (.pstr pingMessage))) },
          stB.remotes.all (fun p => p.2.hasSocket && !(env0.sendBlocks p.1)),
          none)) :=
  ⟨⟨by decide,
    (c6_send_broadcast stBTiny env0 (.pstr pingMessage) rfl (by decide)).1 (by decide)⟩,
  ⟨by decide,
    (c6_send_broadcast stB env0 (.pstr pingMessage) rfl (by decide)).2 (by decide)⟩⟩

/-! ## Claim C8 -/

/-- C8, counterexample: on a restricted stack with an empty disk and no key
arguments, `connect("B", ha=...)` raises `PublicKeyNotFoundOnDisk` (the key
loader's error, which `connect` lets propagate), not the synchronous
`ValueError` the claim promises for a missing encryption public key. -/
theorem c8_connect_counterexample :
    connect (mkInit cfg0 false true) env0 (fun _ => none) (fun _ => none) "B"
        (some ("127.0.0.1", 9002)) none none =
      Except.error ConnErr.pubKeyNotFound ∧
    ¬connect (mkInit cfg0 false true) env0 (fun _ => none) (fun _ => none) "B"
        (some ("127.0.0.1", 9002)) none none =
      Except.error ConnErr.valueError := by
  have h1 : connect (mkInit cfg0 false true) env0 (fun _ => none) (fun _ => none) "B"
      (some ("127.0.0.1", 9002)) none none =
      Except.error ConnErr.pubKeyNotFound := rfl
  refine ⟨h1, ?_⟩
  intro h
  rw [h1] at h
  injection h with h2
  cases h2

/-- C8, amended: for a fresh name, a failing public-key resolution
propagates its loader error (`PublicKeyNotFoundOnDisk` when neither the
argument nor the disk supplies it), a failing verify-key resolution
propagates its error (`VerKeyNotFoundOnDisk` exactly in restricted mode
with nothing supplied), and only with both keys resolved does a missing
host address raise the synchronous `ValueError`; an existing remote is
reused without consulting the arguments or the disk. -/
theorem c8_connect_amended (st : ZState) (env : Env)
    (diskPub diskVer : String → Option String) (name : String)
    (ha : Option (String × Nat)) (verKeyRaw publicKeyRaw : Option String)
    (hname : ¬name = "") :
    (dlookup name st.remotes = none →
      (∀ e, resolvePubKey diskPub name publicKeyRaw = .error e →
        connect st env diskPub diskVer name ha verKeyRaw publicKeyRaw = .error e) ∧
      (∀ pk e, resolvePubKey diskPub name publicKeyRaw = .ok pk →
        resolveVerKey st diskVer name verKeyRaw = .error e →
        connect st env diskPub diskVer name ha verKeyRaw publicKeyRaw = .error e) ∧
      (∀ pk vk, resolvePubKey diskPub name publicKeyRaw = .ok pk →
        resolveVerKey st diskVer name verKeyRaw = .ok vk → ha = none →
        connect st env diskPub diskVer name ha verKeyRaw publicKeyRaw =
          .error .valueError)) ∧
    (publicKeyRaw = none → diskPub name = none →
      resolvePubKey diskPub name publicKeyRaw = .error .pubKeyNotFound) ∧
    (verKeyRaw = none → diskVer name = none →
      resolveVerKey st diskVer name verKeyRaw =
        (if isRestricted st then .error .verKeyNotFound else .ok none)) ∧
    (∀ r, dlookup name st.remotes = some r →
      ∀ (dp2 dv2 : String → Option String) (ha2 : Option (String × Nat))
        (vkr2 pkr2 : Option String),
        connect st env diskPub diskVer name ha verKeyRaw publicKeyRaw =
          connect st env dp2 dv2 name ha2 vkr2 pkr2) := by
  refine ⟨?_, ?_, ?_, ?_⟩
  · intro hnew
    refine ⟨?_, ?_, ?_⟩
    · intro e he
      simp [connect, hname, hnew, he]
    · intro pk e hpk hvk
      simp [connect, hname, hnew, hpk, hvk]
    · intro pk vk hpk hvk hha
      simp [connect, hname, hnew, hpk, hvk, hha]
  · intro h1 h2
    simp [resolvePubKey, getPublicKey, h1, h2]
  · intro h1 h2
    by_cases hr : isRestricted st <;>
      simp [resolveVerKey, getVerKey, h1, h2, hr]
  · intro r hr dp2 dv2 ha2 vkr2 pkr2
    simp [connect, hname, hr]

/-- C8, witness: the amended theorem at concrete inputs: missing public
key, missing verify key in restricted mode, missing host address, and a
reused remote that ignores differing arguments and disks. -/
theorem c8_connect_amended_witness :
    (dlookup "B" (mkInit cfg0 false true).remotes = none ∧
      resolvePubKey (fun _ => none) "B" none = .error .pubKeyNotFound ∧
      connect (mkInit cfg0 false true) env0 (fun _ => none) (fun _ => none) "B"
        (some ("127.0.0.1", 9002)) none none = .error .pubKeyNotFound) ∧
    (resolvePubKey (fun _ => some "pk") "B" none = .ok "pk" ∧
      resolveVerKey (mkInit cfg0 false true) (fun _ => none) "B" none =
        .error .verKeyNotFound ∧
      connect (mkInit cfg0 false true) env0 (fun _ => some "pk") (fun _ => none) "B"
        (some ("127.0.0.1", 9002)) none none = .error .verKeyNotFound) ∧
    (connect (mkInit cfg0 false true) env0 (fun _ => some "pk") (fun _ => some "vk")
        "B" none none none = .error .valueError) ∧
    (dlookup "B" stB.remotes = some remB ∧
      connect stB env0 (fun _ => none) (fun _ => none) "B" none none none =
        connect stB env0 (fun _ => some "other") (fun _ => some "x")
          "B" (some ("h", 1)) (some "v2") (some "p2")) := by
  have h := c8_connect_amended (mkInit cfg0 false true) env0 (fun _ => none)
    (fun _ => none) "B" (some ("127.0.0.1", 9002)) none none (by decide)
  refine ⟨⟨rfl, (h.2.1 rfl rfl), ?_⟩, ⟨rfl, ?_, ?_⟩, ?_, ⟨rfl, ?_⟩⟩
  · exact (h.1 rfl).1 ConnErr.pubKeyNotFound (h.2.1 rfl rfl)
  · have h2 := c8_connect_amended (mkInit cfg0 false true) env0 (fun _ => some "pk")
      (fun _ => none) "B" (some ("127.0.0.1", 9002)) none none (by decide)
    simpa using h2.2.2.1 rfl rfl
  · have h2 := c8_connect_amended (mkInit cfg0 false true) env0 (fun _ => some "pk")
      (fun _ => none) "B" (some ("127.0.0.1", 9002)) none none (by decide)
    exact (h2.1 rfl).2.1 "pk" ConnErr.verKeyNotFound rfl (by simpa using h2.2.2.1 rfl rfl)
  · have h3 := c8_connect_amended (mkInit cfg0 false true) env0 (fun _ => some "pk")
      (fun _ => some "vk") "B" none none none (by decide)
    exact (h3.1 rfl).2.2 "pk" (some "vk") rfl rfl rfl
  · have h4 := c8_connect_amended stB env0 (fun _ => none) (fun _ => none) "B"
      none none none (by decide)
    exact h4.2.2.2 remB rfl (fun _ => some "other") (fun _ => some "x")
      (some ("h", 1)) (some "v2") (some "p2")

/-! ## Claim C1: auxiliary lemmas -/

theorem prepareToSend_maps (st : ZState) (msg : PyMsg) :
    (prepareToSend st msg).1.remotes = st.remotes ∧
    (prepareToSend st msg).1.remotesByKeys = st.remotesByKeys := by
  unfold prepareToSend
  by_cases h : lenValid st.config.MSG_LEN_LIMIT (serializeMsg msg) <;> simp [h]

theorem transmit_maps (st : ZState) (env : Env) (msg : PyMsg) (uid : String)
    (ser : Bool) :
    (transmit st env msg uid ser).1.remotes = st.remotes ∧
    (transmit st env msg uid ser).1.remotesByKeys = st.remotesByKeys := by
  unfold transmit
  cases h : dlookup uid st.remotes with
  | none => simp
  | some r =>
    by_cases hs : r.hasSocket
    · cases ser
      · by_cases hlv : lenValid st.config.MSG_LEN_LIMIT (serializeMsg msg)
        · by_cases hb : env.sendBlocks uid <;> simp [hs, hlv, hb, prepareToSend]
        · simp [hs, hlv, prepareToSend]
      · by_cases hb : env.sendBlocks uid <;> simp [hs, hb]
    · simp [hs]

theorem transmitThroughListener_maps (st : ZState) (env : Env) (msg : PyMsg)
    (ident : String) :
    (transmitThroughListener st env msg ident).1.remotes = st.remotes ∧
    (transmitThroughListener st env msg ident).1.remotesByKeys = st.remotesByKeys := by
  unfold transmitThroughListener
  by_cases hp : ident ∈ st.peersWithoutRemotes
  · by_cases hlv : lenValid st.config.MSG_LEN_LIMIT (serializeMsg msg)
    · by_cases hb : env.listenerBlocks <;> simp [hp, hlv, hb, prepareToSend]
    · simp [hp, hlv, prepareToSend]
  · simp [hp]

theorem sendPingPong_maps (st : ZState) (env : Env) (n : String) (isPing : Bool) :
    (sendPingPong st env n isPing).1.remotes = st.remotes ∧
    (sendPingPong st env n isPing).1.remotesByKeys = st.remotesByKeys := by
  unfold sendPingPong send
  by_cases hol : st.onlyListener
  · simpa [hol] using
      transmitThroughListener_maps st env
        (.pstr (if isPing then pingMessage else pongMessage)) n
  · simpa [hol] using
      transmit_maps st env (.pstr (if isPing then pingMessage else pongMessage)) n false

theorem mapsEq_mapsInv {st st2 : ZState} (h1 : st2.remotes = st.remotes)
    (h2 : st2.remotesByKeys = st.remotesByKeys) (hInv : MapsInv st) : MapsInv st2 := by
  constructor
  · intro k r hk
    rw [h2] at hk
    have hs := hInv.1 k r hk
    exact ⟨hs.1, by rw [h1]; exact hs.2⟩
  · intro n r hn
    rw [h1] at hn
    have hs := hInv.2 n r hn
    exact ⟨hs.1, by rw [h2]; exact hs.2⟩

theorem mapsInv_updRemote (st : ZState) (uid : Nat) (f : Remote → Remote)
    (hname : ∀ r, (f r).name = r.name) (hpk : ∀ r, (f r).publicKey = r.publicKey)
    (hInv : MapsInv st) : MapsInv (updRemote uid f st) := by
  have key : ∀ (m : List (String × Remote)) (q : String),
      dlookup q (m.map (fun p => (p.1, if p.2.uid = uid then f p.2 else p.2))) =
        (dlookup q m).map (fun x => if x.uid = uid then f x else x) :=
    fun m q => dlookup_map_val (fun x => if x.uid = uid then f x else x) q m
  constructor
  · intro k r hk
    simp only [updRemote] at hk
    rw [key] at hk
    cases ho : dlookup k st.remotesByKeys with
    | none => rw [ho] at hk; simp at hk
    | some s =>
      rw [ho] at hk
      simp only [Option.map_some', Option.some.injEq] at hk
      have hs := hInv.1 k s ho
      subst hk
      constructor
      · by_cases hu : s.uid = uid <;> simp [hu, hpk s, hs.1]
      · simp only [updRemote]
        rw [key]
        have hn : (if s.uid = uid then f s else s).name = s.name := by
          by_cases hu : s.uid = uid <;> simp [hu, hname s]
        rw [hn, hs.2]
        simp
  · intro n r hn2
    simp only [updRemote] at hn2
    rw [key] at hn2
    cases ho : dlookup n st.remotes with
    | none => rw [ho] at hn2; simp at hn2
    | some s =>
      rw [ho] at hn2
      simp only [Option.map_some', Option.some.injEq] at hn2
      have hs := hInv.2 n s ho
      subst hn2
      constructor
      · by_cases hu : s.uid = uid <;> simp [hu, hname s, hs.1]
      · simp only [updRemote]
        rw [key]
        have hp : (if s.uid = uid then f s else s).publicKey = s.publicKey := by
          by_cases hu : s.uid = uid <;> simp [hu, hpk s]
        rw [hp, hs.2]
        simp

theorem mapsInv_addRemote (st : ZState) (name : String) (ha : Option (String × Nat))
    (vk : Option String) (pk : String) (hInv : MapsInv st)
    (hok : addOk st name pk = true) :
    MapsInv (addRemote st name ha vk pk).1 := by
  have h1 : ∀ r0, dlookup name st.remotes = some r0 → r0.publicKey = pk := by
    intro r0 h
    have hh := hok
    simp only [addOk, Bool.and_eq_true] at hh
    rw [h] at hh
    simpa using hh.1
  have h2 : ∀ r0, dlookup pk st.remotesByKeys = some r0 → r0.name = name := by
    intro r0 h
    have hh := hok
    simp only [addOk, Bool.and_eq_true] at hh
    rw [h] at hh
    simpa using hh.2
  have htab : (addRemote st name ha vk pk).1.remotes =
      dinsert name
        { name := name, ha := ha, verKey := vk, publicKey := pk, hasSocket := false
          isConnected := false, uid := st.nextUid } st.remotes ∧
      (addRemote st name ha vk pk).1.remotesByKeys =
      dinsert pk
        { name := name, ha := ha, verKey := vk, publicKey := pk, hasSocket := false
          isConnected := false, uid := st.nextUid } st.remotesByKeys := by
    cases vk <;> simp [addRemote]
  constructor
  · intro k r hk
    rw [htab.2, dlookup_dinsert] at hk
    by_cases hkpk : k = pk
    · rw [if_pos hkpk] at hk
      injection hk with hk
      subst hk
      refine ⟨hkpk.symm, ?_⟩
      rw [htab.1, dlookup_dinsert]
      simp
    · rw [if_neg hkpk] at hk
      have hs := hInv.1 k r hk
      refine ⟨hs.1, ?_⟩
      rw [htab.1, dlookup_dinsert]
      have hne : ¬r.name = name := by
        intro he
        have hpkr := h1 r (by rw [← he]; exact hs.2)
        exact hkpk (by rw [← hs.1, hpkr])
      rw [if_neg hne]
      exact hs.2
  · intro n r hn
    rw [htab.1, dlookup_dinsert] at hn
    by_cases hna : n = name
    · rw [if_pos hna] at hn
      injection hn with hn
      subst hn
      refine ⟨hna.symm, ?_⟩
      rw [htab.2, dlookup_dinsert]
      simp
    · rw [if_neg hna] at hn
      have hs := hInv.2 n r hn
      refine ⟨hs.1, ?_⟩
      rw [htab.2, dlookup_dinsert]
      have hne : ¬r.publicKey = pk := by
        intro he
        have hnr := h2 r (by rw [← he]; exact hs.2)
        exact hna (by rw [← hs.1, hnr])
      rw [if_neg hne]
      exact hs.2

theorem mapsInv_removeRemote (st : ZState) (r : Remote) (hInv : MapsInv st)
    (hr : dlookup r.name st.remotes = some r) : MapsInv (removeRemote st r) := by
  have hcond : (dlookup r.name st.remotes).isSome := by rw [hr]; rfl
  have hrk : dlookup r.publicKey st.remotesByKeys = some r := (hInv.2 r.name r hr).2
  have htab : (removeRemote st r).remotes = dpop r.name st.remotes ∧
      (removeRemote st r).remotesByKeys = dpop r.publicKey st.remotesByKeys := by
    cases hvk : r.verKey <;> simp [removeRemote, hcond, hvk]
  constructor
  · intro k s hk
    rw [htab.2, dlookup_dpop] at hk
    by_cases hkp : k = r.publicKey
    · rw [if_pos hkp] at hk
      simp at hk
    · rw [if_neg hkp] at hk
      have hs := hInv.1 k s hk
      refine ⟨hs.1, ?_⟩
      rw [htab.1, dlookup_dpop]
      have hne : ¬s.name = r.name := by
        intro he
        have h3 := hs.2
        rw [he, hr] at h3
        injection h3 with h4
        exact hkp (by rw [← hs.1, ← h4])
      rw [if_neg hne]
      exact hs.2
  · intro n s hn
    rw [htab.1, dlookup_dpop] at hn
    by_cases hnn : n = r.name
    · rw [if_pos hnn] at hn
      simp at hn
    · rw [if_neg hnn] at hn
      have hs := hInv.2 n s hn
      refine ⟨hs.1, ?_⟩
      rw [htab.2, dlookup_dpop]
      have hne : ¬s.publicKey = r.publicKey := by
        intro he
        have h3 := hs.2
        rw [he, hrk] at h3
        injection h3 with h4
        exact hnn (by rw [← hs.1, ← h4])
      rw [if_neg hne]
      exact hs.2

theorem mapsInv_close (st : ZState) (hInv : MapsInv st) : MapsInv (close st) := by
  by_cases h : st.listener
  · refine ⟨fun k r hk => ?_, fun n r hn => ?_⟩
    · simp [close, h, dlookup] at hk
    · simp [close, h, dlookup] at hn
  · simpa [close, h] using hInv

theorem mapsInv_connect (st : ZState) (env : Env)
    (dp dv : String → Option String) (n : String) (ha : Option (String × Nat))
    (vkr pkr : Option String) (st2 : ZState) (uid2 : Nat) (hInv : MapsInv st)
    (hok : opOk env dp dv st (SOp.conn n ha vkr pkr) = true)
    (hc : connect st env dp dv n ha vkr pkr = .ok (st2, uid2)) :
    MapsInv st2 := by
  have hc0 := hc
  unfold connect at hc
  by_cases hn0 : n = ""
  · simp [hn0] at hc
  · simp only [hn0, if_false] at hc
    cases hlk : dlookup n st.remotes with
    | some remote =>
      simp only [hlk] at hc
      simp only [Except.ok.injEq, Prod.mk.injEq] at hc
      obtain ⟨hst2, _⟩ := hc
      subst hst2
      have hstep := mapsInv_updRemote st remote.uid remoteConnect
        (fun r => rfl) (fun r => rfl) hInv
      exact mapsEq_mapsInv
        (sendPingPong_maps (updRemote remote.uid remoteConnect st) env remote.name true).1
        (sendPingPong_maps (updRemote remote.uid remoteConnect st) env remote.name true).2
        hstep
    | none =>
      simp only [hlk] at hc
      cases hpk : resolvePubKey dp n pkr with
      | error e => simp only [hpk] at hc; cases hc
      | ok publicKey =>
        simp only [hpk] at hc
        cases hvk : resolveVerKey st dv n vkr with
        | error e => simp only [hvk] at hc; cases hc
        | ok verKey =>
          simp only [hvk] at hc
          split at hc
          · cases hc
          · simp only [Except.ok.injEq, Prod.mk.injEq] at hc
            obtain ⟨hst2, _⟩ := hc
            subst hst2
            have hcpk : connPk dp n pkr = publicKey := by
              cases pkr with
              | some k => simpa [connPk, resolvePubKey] using hpk
              | none =>
                simp only [resolvePubKey, getPublicKey] at hpk
                cases hd : dp n with
                | none => rw [hd] at hpk; cases hpk
                | some k =>
                  rw [hd] at hpk
                  simp only [Except.ok.injEq] at hpk
                  simp [connPk, hd, hpk]
            have haddok : addOk st n publicKey = true := by
              have hh := hok
              simp only [opOk, hlk, hc0] at hh
              rw [← hcpk]
              exact hh
            have hadd := mapsInv_addRemote st n ha verKey publicKey hInv haddok
            have hupd := mapsInv_updRemote (addRemote st n ha verKey publicKey).1
              (addRemote st n ha verKey publicKey).2.uid remoteConnect
              (fun r => rfl) (fun r => rfl) hadd
            exact mapsEq_mapsInv
              (sendPingPong_maps _ env n true).1
              (sendPingPong_maps _ env n true).2
              hupd

theorem mapsInv_applySOp (env : Env) (dp dv : String → Option String)
    (st : ZState) (op : SOp) (hInv : MapsInv st)
    (hok : opOk env dp dv st op = true) :
    MapsInv (applySOp env dp dv st op) := by
  cases op with
  | add n ha vk pk =>
    exact mapsInv_addRemote st n ha vk pk hInv (by simpa [opOk] using hok)
  | remove n =>
    simp only [applySOp]
    cases hlk : dlookup n st.remotes with
    | none => exact hInv
    | some r =>
      have hrn : r.name = n := (hInv.2 n r hlk).1
      exact mapsInv_removeRemote st r hInv (by rw [hrn]; exact hlk)
  | conn n ha vkr pkr =>
    simp only [applySOp]
    cases hc : connect st env dp dv n ha vkr pkr with
    | error e => exact hInv
    | ok res =>
      exact mapsInv_connect st env dp dv n ha vkr pkr res.1 res.2 hInv hok
        (by rw [hc])
  | closeOp => exact mapsInv_close st hInv

theorem runOps_mapsInv (env : Env) (dp dv : String → Option String) :
    ∀ (ops : List SOp) (st : ZState), MapsInv st →
      opsOk env dp dv st ops = true → MapsInv (runOps env dp dv st ops) := by
  intro ops
  induction ops with
  | nil =>
    intro st h _
    simpa [runOps] using h
  | cons op tl ih =>
    intro st h hok
    simp only [opsOk, Bool.and_eq_true] at hok
    simp only [runOps]
    exact ih _ (mapsInv_applySOp env dp dv st op h hok.1) hok.2

/-- C1, counterexample: from a fresh stack, `addRemote("B", k1)` followed
by `addRemote("B", k2)` (a duplicate name with a different public key)
leaves `remotesByKeys[k1]` pointing at the replaced remote, which is no
longer in `remotes` — the claimed invariant fails after a duplicate-name
`addRemote`. -/
theorem c1_maps_counterexample :
    ¬MapsInv (runOps env0 (fun _ => none) (fun _ => none) (mkInit cfg0 false true)
      [SOp.add "B" none none "k1", SOp.add "B" none none "k2"]) := by
  intro h
  have hlk : dlookup "k1"
      (runOps env0 (fun _ => none) (fun _ => none) (mkInit cfg0 false true)
        [SOp.add "B" none none "k1", SOp.add "B" none none "k2"]).remotesByKeys =
      some { name := "B", ha := none, verKey := none, publicKey := "k1"
             hasSocket := false, isConnected := false, uid := 0 } := by decide
  have h1 := (h.1 "k1" _ hlk).2
  have h2 : dlookup "B"
      (runOps env0 (fun _ => none) (fun _ => none) (mkInit cfg0 false true)
        [SOp.add "B" none none "k1", SOp.add "B" none none "k2"]).remotes =
      some { name := "B", ha := none, verKey := none, publicKey := "k2"
             hasSocket := false, isConnected := false, uid := 1 } := by decide
  have h3 := h1.symm.trans h2
  exact absurd h3 (by decide)

/-- C1, amended: along every trace of `addRemote`, `removeRemote`,
`connect` and `close` operations from a fresh stack in which every table
insertion (`addRemote`, or a `connect` that creates a new remote) either
uses a fresh name together with a fresh public key or re-adds an existing
name with the very key it already has, the cyclic-index invariant holds:
every `remotesByKeys` entry is keyed by its remote's public key and points
to that same remote in `remotes`, and every remote in `remotes` is indexed
by its public key in `remotesByKeys`. -/
theorem c1_maps_invariant (cfg : Config) (oL restr : Bool) (env : Env)
    (dp dv : String → Option String) (ops : List SOp)
    (hops : opsOk env dp dv (mkInit cfg oL restr) ops = true) :
    MapsInv (runOps env dp dv (mkInit cfg oL restr) ops) :=
  runOps_mapsInv env dp dv ops (mkInit cfg oL restr)
    ⟨fun k r hk => by simp [mkInit, dlookup] at hk,
      fun n r hn => by simp [mkInit, dlookup] at hn⟩ hops

/-- C1, witness: a concrete trace — add `B`, connect to it (reuse), remove
it, connect to `C` with keys from disk, close — satisfies the side
condition and the invariant holds at its end. -/
theorem c1_maps_invariant_witness :
    opsOk env0 (fun _ => some "pkC") (fun _ => some "vkC")
        (mkInit cfg0 false true)
        [SOp.add "B" (some ("h", 1)) (some "vkB") "kB",
          SOp.conn "B" none none none,
          SOp.remove "B",
          SOp.conn "C" (some ("h", 2)) none none,
          SOp.closeOp] = true ∧
      MapsInv (runOps env0 (fun _ => some "pkC") (fun _ => some "vkC")
        (mkInit cfg0 false true)
        [SOp.add "B" (some ("h", 1)) (some "vkB") "kB",
          SOp.conn "B" none none none,
          SOp.remove "B",
          SOp.conn "C" (some ("h", 2)) none none,
          SOp.closeOp]) :=
  ⟨by decide,
    c1_maps_invariant cfg0 false true env0 (fun _ => some "pkC") (fun _ => some "vkC")
      [SOp.add "B" (some ("h", 1)) (some "vkB") "kB",
        SOp.conn "B" none none none,
        SOp.remove "B",
        SOp.conn "C" (some ("h", 2)) none none,
        SOp.closeOp] (by decide)⟩

/-! ## Claim C9: string escape lemmas -/

theorem hexVal_hexDig (n : Nat) (h : n < 16) : hexVal (hexDig n) = some n := by
  interval_cases n <;> rfl

theorem parseUnits_esc4 (u : Nat) (rest : List Nat) (hu : u < 0x10000) :
    parseUnits (esc4 u ++ rest) = (parseUnits rest).map (fun p => (u :: p.1, p.2)) := by
  have h1 := hexVal_hexDig (u / 4096 % 16) (Nat.mod_lt _ (by norm_num))
  have h2 := hexVal_hexDig (u / 256 % 16) (Nat.mod_lt _ (by norm_num))
  have h3 := hexVal_hexDig (u / 16 % 16) (Nat.mod_lt _ (by norm_num))
  have h4 := hexVal_hexDig (u % 16) (Nat.mod_lt _ (by norm_num))
  have hval : u / 4096 % 16 * 4096 + u / 256 % 16 * 256 + u / 16 % 16 * 16 + u % 16 = u := by
    omega
  simp only [esc4, List.cons_append]
  rw [parseUnits.eq_def]
  simp [h1, h2, h3, h4, hval]

theorem parseUnits_lit (c : Nat) (Y : List Nat) (h34 : ¬c = 34) (h92 : ¬c = 92)
    (hctl : ¬c < 32) :
    parseUnits (c :: Y) = (parseUnits Y).map (fun p => (c :: p.1, p.2)) := by
  rw [parseUnits.eq_def]
  simp [h34, h92, hctl]

theorem parseUnits_dump (s : List Nat) (hs : ∀ c ∈ s, ValidCp c) (rest : List Nat) :
    parseUnits (dumpStrBody s ++ (34 :: rest)) = some (utf16Units s, rest) := by
  induction s with
  | nil =>
    simp only [dumpStrBody, List.nil_append, utf16Units]
    rw [parseUnits.eq_def]
    simp
  | cons c tl ih =>
    have hc : ValidCp c := hs c (by simp)
    have htl := ih (fun x hx => hs x (by simp [hx]))
    simp only [dumpStrBody, List.append_assoc]
    by_cases h34 : c = 34
    · subst h34
      simp only [escChar, if_pos, List.cons_append, List.nil_append]
      rw [parseUnits.eq_def]
      simp [htl, utf16Units]
    · by_cases h92 : c = 92
      · subst h92
        simp only [escChar, h34, if_neg, if_pos, if_false, List.cons_append,
          List.nil_append]
        rw [parseUnits.eq_def]
        simp [htl, utf16Units]
      · by_cases h8 : c = 8
        · subst h8
          simp only [escChar, h34, h92, if_neg, if_pos, if_false,
            List.cons_append, List.nil_append]
          rw [parseUnits.eq_def]
          simp [htl, utf16Units]
        · by_cases h9 : c = 9
          · subst h9
            simp only [escChar, h34, h92, h8, if_neg, if_pos, if_false,
              List.cons_append, List.nil_append]
            rw [parseUnits.eq_def]
            simp [htl, utf16Units]
          · by_cases h10 : c = 10
            · subst h10
              simp only [escChar, h34, h92, h8, h9, if_neg, if_pos, if_false,
                List.cons_append, List.nil_append]
              rw [parseUnits.eq_def]
              simp [htl, utf16Units]
            · by_cases h12 : c = 12
              · subst h12
                simp only [escChar, h34, h92, h8, h9, h10, if_neg, if_pos,
                  if_false, List.cons_append, List.nil_append]
                rw [parseUnits.eq_def]
                simp [htl, utf16Units]
              · by_cases h13 : c = 13
                · subst h13
                  simp only [escChar, h34, h92, h8, h9, h10, h12, if_neg,
                    if_pos, if_false, List.cons_append, List.nil_append]
                  rw [parseUnits.eq_def]
                  simp [htl, utf16Units]
                · by_cases hprint : 32 ≤ c ∧ c ≤ 126
                  · have hu : c < 0x10000 := by omega
                    have hesc : escChar c = [c] := by
                      simp [escChar, h34, h92, h8, h9, h10, h12, h13, hprint]
                    rw [hesc, List.singleton_append,
                      parseUnits_lit c _ h34 h92 (by omega), htl]
                    simp [utf16Units, hu]
                  · by_cases hbmp : c < 0x10000
                    · have hesc : escChar c = esc4 c := by
                        simp [escChar, h34, h92, h8, h9, h10, h12, h13, hprint, hbmp]
                      rw [hesc, parseUnits_esc4 c _ hbmp, htl]
                      simp [utf16Units, hbmp]
                    · have hesc : escChar c =
                          esc4 (0xD800 + (c - 0x10000) / 0x400) ++
                            esc4 (0xDC00 + (c - 0x10000) % 0x400) := by
                        simp [escChar, h34, h92, h8, h9, h10, h12, h13, hprint, hbmp]
                      have hq : (c - 0x10000) / 0x400 < 0x400 := by
                        have : c < 0x110000 := hc.1
                        omega
                      have hr : (c - 0x10000) % 0x400 < 0x400 :=
                        Nat.mod_lt _ (by norm_num)
                      rw [hesc, List.append_assoc,
                        parseUnits_esc4 _ _ (by omega)]
                      rw [parseUnits_esc4 _ _ (by omega), htl]
                      simp [utf16Units, hbmp]

theorem combine_not_high (c : Nat) (X : List Nat)
    (h : ¬(0xD800 ≤ c ∧ c < 0xDC00)) :
    combineSurrogates (c :: X) = c :: combineSurrogates X := by
  cases X with
  | nil => rfl
  | cons u2 rest => simp [combineSurrogates, h]

theorem combine_utf16 (s : List Nat) (hs : ∀ c ∈ s, ValidCp c) :
    combineSurrogates (utf16Units s) = s := by
  induction s with
  | nil => rfl
  | cons c tl ih =>
    have hc := hs c (by simp)
    have htl := ih (fun x hx => hs x (by simp [hx]))
    by_cases hb : c < 0x10000
    · have hnh : ¬(0xD800 ≤ c ∧ c < 0xDC00) := by
        have := hc.2
        omega
      simp only [utf16Units, hb, if_pos]
      rw [combine_not_high c _ hnh, htl]
    · have hlt : c < 0x110000 := hc.1
      simp only [utf16Units, hb, if_neg, if_false]
      have hcomb : combineSurrogates
          ((0xD800 + (c - 0x10000) / 0x400) ::
            (0xDC00 + (c - 0x10000) % 0x400) :: utf16Units tl) =
          c :: combineSurrogates (utf16Units tl) := by
        have hq : (c - 0x10000) / 0x400 < 0x400 := by omega
        have hr2 : (c - 0x10000) % 0x400 < 0x400 := Nat.mod_lt _ (by norm_num)
        have hcond : (0xD800 ≤ 0xD800 + (c - 0x10000) / 0x400 ∧
            0xD800 + (c - 0x10000) / 0x400 < 0xDC00) ∧
            0xDC00 ≤ 0xDC00 + (c - 0x10000) % 0x400 ∧
            0xDC00 + (c - 0x10000) % 0x400 < 0xE000 := by
          constructor <;> constructor <;> omega
        simp only [combineSurrogates]
        rw [if_pos hcond]
        have : 0x10000 + (0xD800 + (c - 0x10000) / 0x400 - 0xD800) * 0x400 +
            (0xDC00 + (c - 0x10000) % 0x400 - 0xDC00) = c := by
          omega
        rw [this]
      rw [hcomb, htl]

theorem parseStrBody_dump (s : List Nat) (hs : ∀ c ∈ s, ValidCp c)
    (rest : List Nat) :
    parseStrBody (dumpStrBody s ++ (34 :: rest)) = some (s, rest) := by
  simp [parseStrBody, parseUnits_dump s hs rest, combine_utf16 s hs]

theorem validStr_iff (s : List Nat) : validStr s = true ↔ ∀ c ∈ s, ValidCp c := by
  simp [validStr]

theorem skipWs_cons (c : Nat) (r : List Nat) (h : isWs c = false) :
    skipWs (c :: r) = c :: r := by
  simp [skipWs, h]

theorem takeDigits_spec (ds : List Nat) (hds : ∀ d ∈ ds, d < 10)
    (rest : List Nat) (hr : restOk rest) :
    takeDigits (ds.map (fun d => 48 + d) ++ rest) = (ds, rest) := by
  induction ds with
  | nil =>
    cases rest with
    | nil => rfl
    | cons c r =>
      simp only [restOk] at hr
      have hd : isDigit c = false := by
        simp only [isDigit, Bool.and_eq_false_iff, decide_eq_false_iff_not]
        omega
      simp [takeDigits, hd]
  | cons d tl ih =>
    have hd : d < 10 := hds d (by simp)
    have htl := ih (fun x hx => hds x (by simp [hx]))
    have hdig : isDigit (48 + d) = true := by
      simp only [isDigit, Bool.and_eq_true, decide_eq_true_eq]
      omega
    simp [takeDigits, hdig, htl, Nat.add_sub_cancel_left]

theorem natDump_eq (m : Nat) : ∃ ds : List Nat,
    natDump m = ds.map (fun d => 48 + d) ∧ (∀ d ∈ ds, d < 10) ∧ ds ≠ [] ∧
      digitsVal ds = m := by
  by_cases h0 : m = 0
  · subst h0
    refine ⟨[0], rfl, ?_, by simp, by decide⟩
    intro d hd
    simp at hd
    omega
  · refine ⟨(Nat.digits 10 m).reverse, by simp [natDump, h0], ?_, ?_, ?_⟩
    · intro d hd
      exact Nat.digits_lt_base (by norm_num) (List.mem_reverse.mp hd)
    · simp [Nat.digits_ne_nil_iff_ne_zero, h0]
    · simp [digitsVal, Nat.ofDigits_digits]

theorem natDump_head (m : Nat) : ∃ c r, natDump m = c :: r ∧ 48 ≤ c ∧ c ≤ 57 := by
  obtain ⟨ds, hds, hlt, hne, _⟩ := natDump_eq m
  cases ds with
  | nil => exact absurd rfl hne
  | cons d tl =>
    have hd : d < 10 := hlt d (by simp)
    exact ⟨48 + d, tl.map (fun d => 48 + d), by simp [hds], by omega, by omega⟩

theorem intDump_head (i : Int) : ∃ c r, intDump i = c :: r ∧ 45 ≤ c ∧ c ≤ 57 := by
  by_cases hneg : i < 0
  · exact ⟨45, natDump i.natAbs, by simp [intDump, hneg], by omega, by omega⟩
  · obtain ⟨c, r, hc, h1, h2⟩ := natDump_head i.toNat
    exact ⟨c, r, by simp [intDump, hneg, hc], by omega, h2⟩

theorem parseNum_intDump (i : Int) (rest : List Nat) (hr : restOk rest) :
    parseNum (intDump i ++ rest) = some (J.jint i, rest) := by
  by_cases hneg : i < 0
  · obtain ⟨ds, hds, hlt, hne, hval⟩ := natDump_eq i.natAbs
    simp only [intDump, if_pos hneg, List.cons_append, parseNum]
    simp only [if_true]
    rw [hds, takeDigits_spec ds hlt rest hr]
    cases ds with
    | nil => exact absurd rfl hne
    | cons d tl =>
      have hcast : (-(digitsVal (d :: tl) : Int)) = i := by
        rw [hval]
        omega
      simp [hcast]
  · obtain ⟨ds, hds, hlt, hne, hval⟩ := natDump_eq i.toNat
    cases ds with
    | nil => exact absurd rfl hne
    | cons d tl =>
      have hd : d < 10 := hlt d (by simp)
      have ht := takeDigits_spec (d :: tl) hlt rest hr
      simp only [List.map_cons, List.cons_append] at ht
      simp only [intDump, if_neg hneg, hds, List.map_cons, List.cons_append, parseNum]
      rw [if_neg (by omega), ht]
      have hcast : ((digitsVal (d :: tl) : Int)) = i := by
        rw [hval]
        omega
      simp [hcast]

theorem jdump_head (v : J) : ∃ c r, jdump v = c :: r ∧ isWs c = false ∧
    ¬c = 93 ∧ ¬c = 125 ∧ ¬c = 44 ∧ ¬c = 58 := by
  cases v with
  | jnull => exact ⟨110, _, rfl, by decide, by decide, by decide, by decide, by decide⟩
  | jbool b =>
    cases b with
    | true => exact ⟨116, _, rfl, by decide, by decide, by decide, by decide, by decide⟩
    | false => exact ⟨102, _, rfl, by decide, by decide, by decide, by decide, by decide⟩
  | jint n =>
    obtain ⟨c, r, hc, h1, h2⟩ := intDump_head n
    refine ⟨c, r, by simp [jdump, hc], ?_, by omega, by omega, by omega, by omega⟩
    simp only [isWs, Bool.or_eq_false_iff, decide_eq_false_iff_not]
    omega
  | jstr s => exact ⟨34, _, rfl, by decide, by decide, by decide, by decide, by decide⟩
  | jarr xs => exact ⟨91, _, rfl, by decide, by decide, by decide, by decide, by decide⟩
  | jobj fs => exact ⟨123, _, rfl, by decide, by decide, by decide, by decide, by decide⟩

theorem skipWs_jdump (v : J) (A : List Nat) :
    skipWs (jdump v ++ A) = jdump v ++ A := by
  obtain ⟨c, r, hc, hws, _, _, _, _⟩ := jdump_head v
  rw [hc, List.cons_append, skipWs_cons _ _ hws]

theorem skipWs_elems (xs : List J) (A : List Nat) :
    skipWs (jdumpElems xs ++ A) = jdumpElems xs ++ A := by
  cases xs with
  | nil =>
    simp only [jdumpElems, List.cons_append, List.nil_append]
    exact skipWs_cons 93 A (by decide)
  | cons x tl =>
    simp only [jdumpElems, List.append_assoc]
    exact skipWs_jdump x _

theorem skipWs_fields (fs : List (List Nat × J)) (A : List Nat) :
    skipWs (jdumpFields fs ++ A) = jdumpFields fs ++ A := by
  cases fs with
  | nil =>
    simp only [jdumpFields, List.cons_append, List.nil_append]
    exact skipWs_cons 125 A (by decide)
  | cons p tl =>
    simp only [jdumpFields, List.cons_append]
    exact skipWs_cons 34 _ (by decide)

theorem restOk_elemsT (tl : List J) (A : List Nat) : restOk (jdumpElemsT tl ++ A) := by
  cases tl with
  | nil =>
    simp only [jdumpElemsT, List.cons_append, List.nil_append, restOk]
    omega
  | cons y tl2 =>
    simp only [jdumpElemsT, List.cons_append, restOk]
    omega

theorem restOk_fieldsT (tl : List (List Nat × J)) (A : List Nat) :
    restOk (jdumpFieldsT tl ++ A) := by
  cases tl with
  | nil =>
    simp only [jdumpFieldsT, List.cons_append, List.nil_append, restOk]
    omega
  | cons p tl2 =>
    simp only [jdumpFieldsT, List.cons_append, restOk]
    omega

theorem mem_elemsT (tl : List J) (x : Nat) (hx : x ∈ jdumpElemsT tl) :
    x = 44 ∨ x ∈ jdumpElems tl := by
  cases tl with
  | nil => exact Or.inr hx
  | cons y tl2 =>
    simp only [jdumpElemsT, List.mem_cons] at hx
    simpa [jdumpElems] using hx

theorem mem_fieldsT (tl : List (List Nat × J)) (x : Nat) (hx : x ∈ jdumpFieldsT tl) :
    x = 44 ∨ x ∈ jdumpFields tl := by
  cases tl with
  | nil => exact Or.inr hx
  | cons p tl2 =>
    simp only [jdumpFieldsT, List.mem_cons] at hx
    simpa [jdumpFields] using hx

theorem elemsT_len (tl : List J) : (jdumpElems tl).length ≤ (jdumpElemsT tl).length := by
  cases tl with
  | nil => exact le_rfl
  | cons y tl2 => simp [jdumpElems, jdumpElemsT]

theorem fieldsT_len (tl : List (List Nat × J)) :
    (jdumpFields tl).length ≤ (jdumpFieldsT tl).length := by
  cases tl with
  | nil => exact le_rfl
  | cons p tl2 => simp [jdumpFields, jdumpFieldsT]

theorem jdump_len_pos (v : J) : 1 ≤ (jdump v).length := by
  obtain ⟨c, r, hc, _⟩ := jdump_head v
  simp [hc]

theorem skipWs_cons34 (X : List Nat) : skipWs (34 :: X) = 34 :: X :=
  skipWs_cons 34 X (by decide)

theorem skipWs_cons44 (X : List Nat) : skipWs (44 :: X) = 44 :: X :=
  skipWs_cons 44 X (by decide)

theorem skipWs_cons58 (X : List Nat) : skipWs (58 :: X) = 58 :: X :=
  skipWs_cons 58 X (by decide)

theorem skipWs_cons91 (X : List Nat) : skipWs (91 :: X) = 91 :: X :=
  skipWs_cons 91 X (by decide)

theorem skipWs_cons93 (X : List Nat) : skipWs (93 :: X) = 93 :: X :=
  skipWs_cons 93 X (by decide)

theorem skipWs_cons123 (X : List Nat) : skipWs (123 :: X) = 123 :: X :=
  skipWs_cons 123 X (by decide)

theorem skipWs_cons125 (X : List Nat) : skipWs (125 :: X) = 125 :: X :=
  skipWs_cons 125 X (by decide)

theorem parse_jdump_core : ∀ n : Nat,
    (∀ (v : J) (rest : List Nat), wfV v = true → restOk rest → fvV v ≤ n →
      parseVal n (jdump v ++ rest) = some (v, rest)) ∧
    (∀ (b : Bool) (xs : List J) (rest : List Nat), wfE xs = true →
      (xs = [] → b = true) → fvE xs ≤ n →
      parseElems n b (jdumpElems xs ++ rest) = some (xs, rest)) ∧
    (∀ (b : Bool) (fs : List (List Nat × J)) (rest : List Nat), wfF fs = true →
      (fs = [] → b = true) → fvF fs ≤ n →
      parseFields n b (jdumpFields fs ++ rest) = some (fs, rest)) := by
  intro n
  induction n with
  | zero =>
    refine ⟨?_, ?_, ?_⟩
    · intro v rest _ _ hf
      cases v <;> simp only [fvV] at hf <;> omega
    · intro b xs rest _ _ hf
      cases xs <;> simp only [fvE] at hf <;> omega
    · intro b fs rest _ _ hf
      cases fs <;> simp only [fvF] at hf <;> omega
  | succ n ih =>
    obtain ⟨ihP, ihQ, ihR⟩ := ih
    refine ⟨?_, ?_, ?_⟩
    · intro v rest hwf hrest hf
      cases v with
      | jnull =>
        simp only [jdump, List.cons_append, List.nil_append]
        rw [parseVal.eq_def]
        simp [skipWs, isWs]
      | jbool bv =>
        cases bv with
        | true =>
          simp only [jdump, List.cons_append, List.nil_append]
          rw [parseVal.eq_def]
          simp [skipWs, isWs]
        | false =>
          simp only [jdump, List.cons_append, List.nil_append]
          rw [parseVal.eq_def]
          simp [skipWs, isWs]
      | jint i =>
        obtain ⟨c, r, hc, h1, h2⟩ := intDump_head i
        have hpn := parseNum_intDump i rest hrest
        have hws : isWs c = false := by
          simp only [isWs, Bool.or_eq_false_iff, decide_eq_false_iff_not]
          omega
        have e1 : ¬c = 110 := by omega
        have e2 : ¬c = 116 := by omega
        have e3 : ¬c = 102 := by omega
        have e4 : ¬c = 34 := by omega
        have e5 : ¬c = 91 := by omega
        have e6 : ¬c = 123 := by omega
        rw [parseVal.eq_def]
        simp only [jdump, hc, List.cons_append,
          skipWs_cons c (r ++ rest) hws]
        simp only [e1, e2, e3, e4, e5, e6, if_false]
        rw [← List.cons_append, ← hc]
        exact hpn
      | jstr s =>
        have hs : ∀ c ∈ s, ValidCp c := (validStr_iff s).mp (by simpa [wfV] using hwf)
        have hps := parseStrBody_dump s hs rest
        simp only [jdump, List.cons_append, List.append_assoc, List.nil_append]
        rw [parseVal.eq_def]
        simp [skipWs, isWs, hps]
      | jarr xs =>
        have hfE : fvE xs ≤ n := by
          simp only [fvV] at hf
          omega
        have hQ := ihQ true xs rest (by simpa [wfV] using hwf) (fun _ => rfl) hfE
        rw [parseVal.eq_def]
        simp [jdump, List.cons_append, skipWs_cons91, skipWs_elems, hQ]
      | jobj fs =>
        have hfF : fvF fs ≤ n := by
          simp only [fvV] at hf
          omega
        have hR := ihR true fs rest (by simpa [wfV] using hwf) (fun _ => rfl) hfF
        rw [parseVal.eq_def]
        simp [jdump, List.cons_append, skipWs_cons123, skipWs_fields, hR]
    · intro b xs rest hwf hemp hf
      cases xs with
      | nil =>
        rw [parseElems.eq_def]
        simp [jdumpElems, hemp rfl]
      | cons x tl =>
        have hcomp : wfV x = true ∧ wfE tl = true := by
          simpa [wfE, Bool.and_eq_true] using hwf
        have hfx : fvV x ≤ n := by
          simp only [fvE] at hf
          omega
        have hft : fvE tl ≤ n := by
          simp only [fvE] at hf
          omega
        obtain ⟨c, r, hc, hws, h93, h125, h44, h58⟩ := jdump_head x
        have hPx : parseVal n (c :: (r ++ (jdumpElemsT tl ++ rest))) =
            some (x, jdumpElemsT tl ++ rest) := by
          have h := ihP x (jdumpElemsT tl ++ rest) hcomp.1 (restOk_elemsT tl rest) hfx
          rw [hc, List.cons_append] at h
          exact h
        rw [parseElems.eq_def]
        simp only [jdumpElems, hc, List.cons_append, List.append_assoc]
        simp only [h93, if_false, hPx]
        cases tl with
        | nil =>
          simp [jdumpElemsT, skipWs_cons93]
        | cons y tl2 =>
          have hQtl : parseElems n false (jdump y ++ (jdumpElemsT tl2 ++ rest)) =
              some (y :: tl2, rest) := by
            have h := ihQ false (y :: tl2) rest hcomp.2 (by simp) hft
            simpa [jdumpElems, List.append_assoc] using h
          simp [jdumpElemsT, List.cons_append, List.append_assoc,
            skipWs_cons44, skipWs_jdump, hQtl]
    · intro b fs rest hwf hemp hf
      cases fs with
      | nil =>
        rw [parseFields.eq_def]
        simp [jdumpFields, hemp rfl]
      | cons p tl =>
        have hcomp : (validStr p.1 = true ∧ wfV p.2 = true) ∧ wfF tl = true := by
          simpa [wfF, Bool.and_eq_true, and_assoc] using hwf
        have hfx : fvV p.2 ≤ n := by
          simp only [fvF] at hf
          omega
        have hft : fvF tl ≤ n := by
          simp only [fvF] at hf
          omega
        have hk : ∀ c ∈ p.1, ValidCp c := (validStr_iff p.1).mp hcomp.1.1
        have hps := parseStrBody_dump p.1 hk
          (58 :: (jdump p.2 ++ (jdumpFieldsT tl ++ rest)))
        have hPv := ihP p.2 (jdumpFieldsT tl ++ rest) hcomp.1.2
          (restOk_fieldsT tl rest) hfx
        rw [parseFields.eq_def]
        simp only [jdumpFields, List.cons_append, List.append_assoc, List.nil_append]
        simp only [hps, hPv, skipWs_cons58]
        cases tl with
        | nil =>
          simp [jdumpFieldsT, skipWs_cons125]
        | cons q tl2 =>
          have hRtl : parseFields n false
              (34 :: (dumpStrBody q.1 ++
                (34 :: (58 :: (jdump q.2 ++ (jdumpFieldsT tl2 ++ rest)))))) =
              some (q :: tl2, rest) := by
            have h := ihR false (q :: tl2) rest hcomp.2 (by simp) hft
            simpa [jdumpFields, List.cons_append, List.append_assoc,
              List.nil_append] using h
          simp [jdumpFieldsT, List.cons_append, List.append_assoc, List.nil_append,
            skipWs_cons44, skipWs_cons34, hRtl]

theorem fv_le_dump_core : ∀ n : Nat,
    (∀ v : J, fvV v ≤ n → fvV v ≤ (jdump v).length) ∧
    (∀ xs : List J, fvE xs ≤ n → fvE xs ≤ (jdumpElems xs).length) ∧
    (∀ fs : List (List Nat × J), fvF fs ≤ n → fvF fs ≤ (jdumpFields fs).length) := by
  intro n
  induction n with
  | zero =>
    refine ⟨?_, ?_, ?_⟩
    · intro v hf
      cases v <;> simp only [fvV] at hf <;> omega
    · intro xs hf
      cases xs <;> simp only [fvE] at hf <;> omega
    · intro fs hf
      cases fs <;> simp only [fvF] at hf <;> omega
  | succ n ih =>
    obtain ⟨ihP, ihQ, ihR⟩ := ih
    refine ⟨?_, ?_, ?_⟩
    · intro v hf
      cases v with
      | jnull => simp [fvV, jdump]
      | jbool bv => cases bv <;> simp [fvV, jdump]
      | jint i =>
        have := jdump_len_pos (.jint i)
        simp only [fvV]
        omega
      | jstr s => simp [fvV, jdump]
      | jarr xs =>
        have hfE : fvE xs ≤ n := by
          simp only [fvV] at hf
          omega
        have := ihQ xs hfE
        simp only [fvV, jdump, List.length_cons]
        omega
      | jobj fs =>
        have hfF : fvF fs ≤ n := by
          simp only [fvV] at hf
          omega
        have := ihR fs hfF
        simp only [fvV, jdump, List.length_cons]
        omega
    · intro xs hf
      cases xs with
      | nil => simp [fvE, jdumpElems]
      | cons x tl =>
        have hfx : fvV x ≤ n := by
          simp only [fvE] at hf
          omega
        have hft : fvE tl ≤ n := by
          simp only [fvE] at hf
          omega
        have h1 := ihP x hfx
        have h2 := ihQ tl hft
        have h3 := elemsT_len tl
        have h4 := jdump_len_pos x
        have h5 : 1 ≤ (jdumpElemsT tl).length := by
          cases tl <;> simp [jdumpElemsT]
        simp only [fvE, jdumpElems, List.length_append]
        omega
    · intro fs hf
      cases fs with
      | nil => simp [fvF, jdumpFields]
      | cons p tl =>
        have hfx : fvV p.2 ≤ n := by
          simp only [fvF] at hf
          omega
        have hft : fvF tl ≤ n := by
          simp only [fvF] at hf
          omega
        have h1 := ihP p.2 hfx
        have h2 := ihR tl hft
        have h3 := fieldsT_len tl
        simp only [fvF, jdumpFields, List.length_append, List.length_cons]
        omega

theorem fv_le_dump (v : J) : fvV v ≤ (jdump v).length :=
  (fv_le_dump_core (fvV v)).1 v le_rfl

theorem hexDig_lt (n : Nat) (h : n < 16) : hexDig n < 128 := by
  unfold hexDig
  split <;> omega

theorem esc4_ascii (u x : Nat) (hx : x ∈ esc4 u) : x < 128 := by
  have h1 := hexDig_lt (u / 4096 % 16) (Nat.mod_lt _ (by norm_num))
  have h2 := hexDig_lt (u / 256 % 16) (Nat.mod_lt _ (by norm_num))
  have h3 := hexDig_lt (u / 16 % 16) (Nat.mod_lt _ (by norm_num))
  have h4 := hexDig_lt (u % 16) (Nat.mod_lt _ (by norm_num))
  simp only [esc4, List.mem_cons, List.not_mem_nil, or_false] at hx
  rcases hx with rfl | rfl | rfl | rfl | rfl | rfl <;> omega

theorem escChar_ascii (c x : Nat) (hx : x ∈ escChar c) : x < 128 := by
  unfold escChar at hx
  split_ifs at hx with g1 g2 g3 g4 g5 g6 g7 g8 g9
  · simp at hx; omega
  · simp at hx; omega
  · simp at hx; omega
  · simp at hx; omega
  · simp at hx; omega
  · simp at hx; omega
  · simp at hx; omega
  · simp at hx; omega
  · exact esc4_ascii c x hx
  · rcases List.mem_append.mp hx with h | h
    · exact esc4_ascii _ x h
    · exact esc4_ascii _ x h

theorem dumpStrBody_ascii (s : List Nat) (x : Nat) (hx : x ∈ dumpStrBody s) :
    x < 128 := by
  induction s with
  | nil => simp [dumpStrBody] at hx
  | cons c tl ih =>
    simp only [dumpStrBody, List.mem_append] at hx
    rcases hx with h | h
    · exact escChar_ascii c x h
    · exact ih h

theorem natDump_ascii (m x : Nat) (hx : x ∈ natDump m) : x < 128 := by
  obtain ⟨ds, hds, hlt, _, _⟩ := natDump_eq m
  rw [hds] at hx
  obtain ⟨d, hd, rfl⟩ := List.mem_map.mp hx
  have := hlt d hd
  omega

theorem intDump_ascii (i : Int) (x : Nat) (hx : x ∈ intDump i) : x < 128 := by
  unfold intDump at hx
  split_ifs at hx
  · rcases List.mem_cons.mp hx with rfl | h
    · omega
    · exact natDump_ascii _ x h
  · exact natDump_ascii _ x hx

theorem jdump_ascii_core : ∀ n : Nat,
    (∀ v : J, fvV v ≤ n → ∀ x ∈ jdump v, x < 128) ∧
    (∀ xs : List J, fvE xs ≤ n → ∀ x ∈ jdumpElems xs, x < 128) ∧
    (∀ fs : List (List Nat × J), fvF fs ≤ n → ∀ x ∈ jdumpFields fs, x < 128) := by
  intro n
  induction n with
  | zero =>
    refine ⟨?_, ?_, ?_⟩
    · intro v hf
      cases v <;> simp only [fvV] at hf <;> omega
    · intro xs hf
      cases xs <;> simp only [fvE] at hf <;> omega
    · intro fs hf
      cases fs <;> simp only [fvF] at hf <;> omega
  | succ n ih =>
    obtain ⟨ihP, ihQ, ihR⟩ := ih
    refine ⟨?_, ?_, ?_⟩
    · intro v hf x hx
      cases v with
      | jnull => simp [jdump] at hx; rcases hx with rfl | rfl | rfl | rfl <;> omega
      | jbool bv =>
        cases bv <;> simp [jdump] at hx <;>
          rcases hx with rfl | rfl | rfl | rfl | rfl <;> omega
      | jint i => exact intDump_ascii i x hx
      | jstr s =>
        simp only [jdump, List.mem_cons, List.mem_append] at hx
        rcases hx with rfl | h | h
        · omega
        · exact dumpStrBody_ascii s x h
        · simp at h; omega
      | jarr xs =>
        have hfE : fvE xs ≤ n := by
          simp only [fvV] at hf
          omega
        simp only [jdump, List.mem_cons] at hx
        rcases hx with rfl | h
        · omega
        · exact ihQ xs hfE x h
      | jobj fs =>
        have hfF : fvF fs ≤ n := by
          simp only [fvV] at hf
          omega
        simp only [jdump, List.mem_cons] at hx
        rcases hx with rfl | h
        · omega
        · exact ihR fs hfF x h
    · intro xs hf x hx
      cases xs with
      | nil => simp [jdumpElems] at hx; omega
      | cons y tl =>
        have hfx : fvV y ≤ n := by
          simp only [fvE] at hf
          omega
        have hft : fvE tl ≤ n := by
          simp only [fvE] at hf
          omega
        simp only [jdumpElems, List.mem_append] at hx
        rcases hx with h | h
        · exact ihP y hfx x h
        · rcases mem_elemsT tl x h with rfl | h2
          · omega
          · exact ihQ tl hft x h2
    · intro fs hf x hx
      cases fs with
      | nil => simp [jdumpFields] at hx; omega
      | cons p tl =>
        have hfx : fvV p.2 ≤ n := by
          simp only [fvF] at hf
          omega
        have hft : fvF tl ≤ n := by
          simp only [fvF] at hf
          omega
        simp only [jdumpFields, List.cons_append, List.mem_cons,
          List.mem_append, List.not_mem_nil, or_false] at hx
        rcases hx with rfl | hx2
        · omega
        · rcases hx2 with h | h
          · rcases h with h3 | rfl | rfl
            · exact dumpStrBody_ascii p.1 x h3
            · omega
            · omega
          · rcases h with h3 | h3
            · exact ihP p.2 hfx x h3
            · rcases mem_fieldsT tl x h3 with rfl | h4
              · omega
              · exact ihR tl hft x h4

theorem jdump_ascii (v : J) : ∀ x ∈ jdump v, x < 128 :=
  (jdump_ascii_core (fvV v)).1 v le_rfl

theorem loads_jdump (v : J) (hwf : wfV v = true) : loads (jdump v) = some v := by
  have hfv : fvV v ≤ (jdump v).length + 1 :=
    le_trans (fv_le_dump v) (Nat.le_succ _)
  have hp := (parse_jdump_core ((jdump v).length + 1)).1 v [] hwf trivial hfv
  rw [List.append_nil] at hp
  simp [loads, hp, skipWs]

/-- C9: serialization followed by deserialization is the identity on every
JSON-representable mapping: for any well-formed field list `fs` (each key and
each string value a sequence of Unicode scalar values),
`deserializeMsg (serializeMsg (pmap fs))` returns exactly the mapping
`jobj fs`. -/
theorem c9_serialize_roundtrip (fs : List (List Nat × J)) (hwf : wfF fs = true) :
    deserializeMsg (serializeMsg (.pmap fs)) = some (.jobj fs) := by
  have hascii : ∀ x ∈ jdump (.jobj fs), x < 128 := jdump_ascii _
  have henc : utf8Encode (jdump (.jobj fs)) = jdump (.jobj fs) :=
    utf8Encode_ascii _ hascii
  have hdec : utf8Decode (jdump (.jobj fs)) = some (jdump (.jobj fs)) :=
    utf8Decode_ascii _ hascii
  have hloads : loads (jdump (.jobj fs)) = some (.jobj fs) :=
    loads_jdump _ (by simpa [wfV] using hwf)
  simp [deserializeMsg, serializeMsg, henc, hdec, hloads]

/-- C9, witness: the concrete mapping with fields `hi: 5` and
`s: "a\"b"` is well-formed and round-trips to itself. -/
theorem c9_serialize_roundtrip_witness :
    wfF [([104, 105], J.jint 5), ([115], J.jstr [97, 34, 98])] = true ∧
      deserializeMsg (serializeMsg
        (.pmap [([104, 105], J.jint 5), ([115], J.jstr [97, 34, 98])])) =
        some (.jobj [([104, 105], J.jint 5), ([115], J.jstr [97, 34, 98])]) :=
  ⟨by decide, c9_serialize_roundtrip _ (by decide)⟩

end ZStackModel
